import Mathlib

/-!
# RebelFLOW core: a shallow embedding in Lean 4

This file embeds the core of the RebelFLOW workflow engine
(`WorkflowEngine.ts`, `EventBus` from `core/IMPLEMENTATION.md`,
`core/events/EventPropagator.ts`) and proves or refutes the specification
claims about it.

Modelling conventions:
* JavaScript objects used as string-keyed records become association lists
  (`Rec`); `Map` becomes an association list with insertion-order-preserving
  update, which matches the iteration order of a JS `Map`.
* JS values that flow through node ports are modelled by `Value`
  (null / boolean / number / string), enough to express JS truthiness,
  which the engine's `gatherInputs` relies on.
* Asynchronous code is sequentialised: the engine's sequential execution
  path and the bus's publish fan-out are modelled as total functions.
  Real time (Date.now), logging and the AbortController wiring are modelled
  only where a claim mentions them.
* Recursive graph walks (`topologicalSort`'s DFS and the propagator's
  chain walk) take an explicit fuel argument that decreases on every call,
  so every definition is structurally recursive and kernel-computable.
  The fuel supplied by `topologicalSort` is proved sufficient
  (`visit_no_fuelMsg`, `topologicalSort_ne_fuelMsg`).
-/

deriving instance DecidableEq for Except

namespace RebelFlow

/-! ## JS values and records -/

/-- A JavaScript value as far as the engine inspects it: the engine only
branches on truthiness, so null, booleans, numbers and strings suffice. -/
inductive Value where
  | null
  | bool (b : Bool)
  | num (n : Int)
  | str (s : String)
deriving DecidableEq, Repr

/-- JS truthiness: `0`, `false`, `""` and `null` are falsy. -/
def Value.truthy : Value → Bool
  | .null => false
  | .bool b => b
  | .num n => n != 0
  | .str s => s != ""

/-- A JS object used as a string-keyed record (e.g. `NodeInputs`,
`NodeOutputs`). -/
abbrev Rec := List (String × Value)

/-- Assoc-list update with JS `Map.set` / property-assignment semantics:
an existing key is updated in place, a new key is appended. -/
def setEntry {α : Type} (m : List (String × α)) (k : String) (v : α) :
    List (String × α) :=
  if m.any (fun kv => kv.1 == k) then
    m.map (fun kv => if kv.1 == k then (k, v) else kv)
  else m ++ [(k, v)]

/-- Assoc-list lookup (`map.get(k)` / `obj[k]`, `none` for undefined). -/
def getEntry {α : Type} (m : List (String × α)) (k : String) : Option α :=
  (m.find? (fun kv => kv.1 == k)).map (fun kv => kv.2)

/-- `inputs[k] = v` on a record. -/
def setKey (r : Rec) (k : String) (v : Value) : Rec := setEntry r k v

/-- `r[k]`, `none` when the key is absent. -/
def getKey (r : Rec) (k : String) : Option Value := getEntry r k

/-- `Object.assign(target, source)`: every key of `source` is written into
`target`, in source order, so source values win on key conflicts. -/
def assign (target source : Rec) : Rec :=
  source.foldl (fun acc kv => setKey acc kv.1 kv.2) target

/-! ## Graph model (`WorkflowTypes.ts` / `EventPropagator.ts`)

Only the fields the embedded functions read are modelled: the engine and
the propagator read `id` and `type` of a node, the four endpoint fields of
a connection, and `id` / `nodes` / `connections` / `entryPoints` /
`exitPoints` of a workflow. -/

structure Node where
  id : String
  type : String
deriving DecidableEq, Repr

structure Connection where
  id : String
  sourceNodeId : String
  sourcePortId : String
  targetNodeId : String
  targetPortId : String
deriving DecidableEq, Repr

structure Workflow where
  id : String
  nodes : List Node
  connections : List Connection
  entryPoints : List String
  exitPoints : List String
deriving DecidableEq, Repr

/-! ## Workflow engine (`WorkflowEngine.ts`) -/

/-- `WorkflowStatus` values used by the engine. -/
inductive WStatus where
  | running
  | paused
  | completed
  | failed
  | cancelled
deriving DecidableEq, Repr

/-- The part of `ExecutionContext` the embedded code paths read and write:
`nodeOutputs : Map<string, NodeOutputs>` and `status`.  `startTime`,
`variables` and the logger do not influence any claim. -/
structure ExecutionContext where
  workflowId : String
  nodeOutputs : List (String × Rec)
  status : WStatus
deriving DecidableEq, Repr

/-- `WorkflowEngine.getNodeDependencies`: the sources of all connections
targeting `nodeId`. -/
def getNodeDependencies (nodeId : String) (workflow : Workflow) : List String :=
  (workflow.connections.filter (fun c => c.targetNodeId == nodeId)).map
    (fun c => c.sourceNodeId)

/-- State of the depth-first topological sort: the `temp` set (the current
DFS stack, most recent first), the `visited` set and the accumulated
`result` order. -/
structure TSState where
  temp : List String
  visited : List String
  result : List String
deriving DecidableEq, Repr

/-- The cycle error thrown by `topologicalSort`. -/
def cycleMsg (nodeId : String) : String :=
  "Workflow contains a cycle involving node " ++ nodeId

/-- Artificial out-of-fuel marker of the embedding; `topologicalSort` is
proved never to produce it with the fuel it supplies. -/
def fuelMsg : String := "topologicalSort: out of fuel"

mutual
/-- The recursive `visit` helper of `WorkflowEngine.topologicalSort`:
cycle check on `temp`, early return on `visited`, then a DFS into the
node's dependencies followed by the postorder push. -/
def visit (wf : Workflow) : Nat → String → TSState → Except String TSState
  | 0, _, _ => .error fuelMsg
  | fuel+1, nodeId, st =>
    if st.temp.contains nodeId then .error (cycleMsg nodeId)
    else if st.visited.contains nodeId then .ok st
    else
      match visitList wf fuel (getNodeDependencies nodeId wf)
          { st with temp := nodeId :: st.temp } with
      | .error e => .error e
      | .ok st2 =>
          .ok { temp := st2.temp.erase nodeId,
                visited := st2.visited ++ [nodeId],
                result := st2.result ++ [nodeId] }

/-- Sequential `visit` over a list of node ids (the dependency loop and the
two top-level loops of `topologicalSort`). -/
def visitList (wf : Workflow) : Nat → List String → TSState → Except String TSState
  | 0, _, _ => .error fuelMsg
  | _+1, [], st => .ok st
  | fuel+1, d :: ds, st =>
    match visit wf fuel d st with
    | .error e => .error e
    | .ok st' => visitList wf fuel ds st'
end

/-- All node ids the DFS can ever push: entry points, workflow nodes, and
sources of connections (the only ids `getNodeDependencies` produces). -/
def tsUniverse (wf : Workflow) : List String :=
  (wf.entryPoints ++ wf.nodes.map (fun n => n.id)
    ++ wf.connections.map (fun c => c.sourceNodeId)).dedup

/-- Fuel sufficient for the whole sort (proved in `topologicalSort_ne_fuelMsg`). -/
def tsFuel (wf : Workflow) : Nat :=
  (tsUniverse wf).length * (wf.connections.length + 2)
    + (wf.entryPoints.length + wf.nodes.length) + 2

/-- `WorkflowEngine.topologicalSort`: visit the entry points, then every
workflow node (the `if (!visited.has(node.id))` guard of the source is
subsumed by the identical early-return inside `visit`). -/
def topologicalSort (workflow : Workflow) : Except String (List String) :=
  match visitList workflow (tsFuel workflow)
      (workflow.entryPoints ++ workflow.nodes.map (fun n => n.id))
      { temp := [], visited := [], result := [] } with
  | .error e => .error e
  | .ok st => .ok st.result

/-- The dependency edge relation of the workflow graph: `edgeP wf a b`
holds when some connection has source `a` and target `b` (equivalently,
`a ∈ getNodeDependencies b wf`). -/
def edgeP (wf : Workflow) (a b : String) : Prop :=
  a ∈ getNodeDependencies b wf

/-- A node the sort's DFS can reach: it lies on a dependency path leading
(forward along connections) to an entry point or a workflow node — the
ids the two top-level loops start from. -/
def ReachedBySort (wf : Workflow) (x : String) : Prop :=
  ∃ s, (s ∈ wf.entryPoints ∨ s ∈ wf.nodes.map (fun n => n.id)) ∧
    Relation.ReflTransGen (edgeP wf) x s

/-- Invariant of the accumulated topological order: no duplicates, closed
under dependencies, every dependency strictly precedes its dependent, and
no member depends on itself. -/
def ResInv (wf : Workflow) (r : List String) : Prop :=
  r.Nodup ∧
  (∀ n ∈ r, ∀ d ∈ getNodeDependencies n wf, d ∈ r) ∧
  r.Pairwise (fun x y => y ∉ getNodeDependencies x wf) ∧
  (∀ n ∈ r, n ∉ getNodeDependencies n wf)

/-- Invariant of the sort state: `visited` and `result` hold the same
ids, and the result satisfies `ResInv`. -/
def TSInv (wf : Workflow) (st : TSState) : Prop :=
  (∀ x, x ∈ st.visited ↔ x ∈ st.result) ∧ ResInv wf st.result

/-- Invariant of the DFS stack: every stacked node is reachable (along
dependency edges) from the most recently pushed one. -/
def TempChainInv (wf : Workflow) (temp : List String) : Prop :=
  match temp with
  | [] => True
  | hd :: _ => ∀ x ∈ temp, Relation.ReflTransGen (edgeP wf) hd x

/-- `levels.get(id) || 0` (a missing entry and an entry of `0` both give 0). -/
def levelOf (levels : List (String × Nat)) (nodeId : String) : Nat :=
  match getEntry levels nodeId with
  | some l => l
  | none => 0

/-- `WorkflowEngine.groupNodesByLevel`: initialise every node of the
execution order at level 0, then make a single pass over the connection
list bumping the target whenever its level does not exceed the source's,
and finally group by level, levels in ascending order, each group in
`levels`-map insertion order. -/
def groupNodesByLevel (workflow : Workflow) (executionOrder : List String) :
    List (List String) :=
  let levels0 := executionOrder.foldl (fun m nodeId => setEntry m nodeId 0) []
  let levels := workflow.connections.foldl (fun m connection =>
    let sourceLevel := levelOf m connection.sourceNodeId
    let targetLevel := levelOf m connection.targetNodeId
    if targetLevel ≤ sourceLevel then
      setEntry m connection.targetNodeId (sourceLevel + 1)
    else m) levels0
  let levelKeys := (levels.map (fun kv => kv.2)).foldl
    (fun acc v => if acc.contains v then acc else acc ++ [v]) []
  let sortedLevels := levelKeys.insertionSort (fun a b => a ≤ b)
  sortedLevels.map (fun lv =>
    (levels.filter (fun kv => kv.2 == lv)).map (fun kv => kv.1))

/-- `WorkflowEngine.gatherInputs`: for every connection targeting the node,
copy the source output value to the target port — but only when the source
node has outputs recorded and the value is truthy
(`sourceOutputs && sourceOutputs[connection.sourcePortId]`).  For entry
nodes the seed stored under the node's own `nodeOutputs` slot is then
merged in via `Object.assign(inputs, initialInputs)`. -/
def gatherInputs (node : Node) (workflow : Workflow)
    (context : ExecutionContext) : Rec :=
  let inputs := workflow.connections.foldl (fun inputs connection =>
    if connection.targetNodeId == node.id then
      match getEntry context.nodeOutputs connection.sourceNodeId with
      | some sourceOutputs =>
        match getKey sourceOutputs connection.sourcePortId with
        | some v =>
            if v.truthy then setKey inputs connection.targetPortId v
            else inputs
        | none => inputs
      | none => inputs
    else inputs) []
  if workflow.entryPoints.contains node.id then
    match getEntry context.nodeOutputs node.id with
    | some initialInputs => assign inputs initialInputs
    | none => inputs
  else inputs

/-- The per-connection step of the `gatherInputs` connection loop, named
so the theorems can speak about the fold (`gatherInputs` is literally a
`foldl` of this step followed by the entry-node merge). -/
def gatherStep (node : Node) (context : ExecutionContext) :
    Rec → Connection → Rec := fun inputs connection =>
  if connection.targetNodeId == node.id then
    match getEntry context.nodeOutputs connection.sourceNodeId with
    | some sourceOutputs =>
      match getKey sourceOutputs connection.sourcePortId with
      | some v =>
          if v.truthy then setKey inputs connection.targetPortId v
          else inputs
      | none => inputs
    | none => inputs
  else inputs

/-- The fields of `WorkflowResult` that carry run information (`startTime`
/ `endTime` / `executionTime` are wall-clock values outside the model). -/
structure WorkflowResult where
  workflowId : String
  status : WStatus
  outputs : List (String × Rec)
  nodesExecuted : Nat
deriving DecidableEq, Repr

/-- `WorkflowEngine.createWorkflowResult`: collect the recorded outputs of
the exit nodes and stamp the result with `context.status`. -/
def createWorkflowResult (workflow : Workflow) (context : ExecutionContext)
    (nodesExecuted : Nat) : WorkflowResult :=
  let outputs := workflow.exitPoints.foldl (fun outputs exitNodeId =>
    match getEntry context.nodeOutputs exitNodeId with
    | some nodeOutputs => setEntry outputs exitNodeId nodeOutputs
    | none => outputs) []
  { workflowId := workflow.id,
    status := context.status,
    outputs := outputs,
    nodesExecuted := nodesExecuted }

/-- The sequential node loop of `executeWorkflow`: look the node up, gather
its inputs, run the executor, store the outputs, count it.  A node id
without a matching node is skipped (`continue`); an executor failure
rejects the run. -/
def runSeq (exec : Node → Rec → Except String Rec) (workflow : Workflow) :
    List String → ExecutionContext → Nat → Except String (ExecutionContext × Nat)
  | [], context, nodesExecuted => .ok (context, nodesExecuted)
  | nodeId :: rest, context, nodesExecuted =>
    match workflow.nodes.find? (fun n => n.id == nodeId) with
    | none => runSeq exec workflow rest context nodesExecuted
    | some node =>
      let inputs := gatherInputs node workflow context
      match exec node inputs with
      | .error e => .error e
      | .ok outputs =>
          runSeq exec workflow rest
            { context with nodeOutputs := setEntry context.nodeOutputs nodeId outputs }
            (nodesExecuted + 1)

/-- `WorkflowEngine.executeWorkflow`, sequential mode, no timeout and no
external cancellation: build the context (status `running`), seed
`context.nodeOutputs[entry] = options.inputs` for every entry node, sort,
run the loop, and assemble the result via `createWorkflowResult`.
`exec` stands for `nodeExecutor.executeNode` restricted to the data it
reads. -/
def executeWorkflowSeq (exec : Node → Rec → Except String Rec)
    (workflow : Workflow) (inputs : Option Rec) : Except String WorkflowResult :=
  let context0 : ExecutionContext :=
    { workflowId := workflow.id, nodeOutputs := [], status := .running }
  let context1 := match inputs with
    | some ins => workflow.entryPoints.foldl
        (fun ctx entryNodeId =>
          { ctx with nodeOutputs := setEntry ctx.nodeOutputs entryNodeId ins })
        context0
    | none => context0
  match topologicalSort workflow with
  | .error e => .error e
  | .ok executionOrder =>
    match runSeq exec workflow executionOrder context1 0 with
    | .error e => .error e
    | .ok (context2, nodesExecuted) =>
        .ok (createWorkflowResult workflow context2 nodesExecuted)

/-! ### Engine control plane (`stopWorkflow` / `getWorkflowStatus`) -/

/-- One entry of the `activeWorkflows` map: handle status, the context's
status, and whether the run's `AbortController` has been aborted. -/
structure ActiveWorkflow where
  status : WStatus
  contextStatus : WStatus
  aborted : Bool
deriving DecidableEq, Repr

/-- Engine state observable by the control operations: the
`activeWorkflows` map plus the ordered list of event types published. -/
structure EngineState where
  activeWorkflows : List (String × ActiveWorkflow)
  published : List String
deriving DecidableEq, Repr

/-- `WorkflowEngine.stopWorkflow`: requires a handle; sets both statuses to
`cancelled`, aborts the controller, publishes `workflow:failed` — and does
not remove the handle from `activeWorkflows`. -/
def stopWorkflow (es : EngineState) (workflowId : String) :
    Except String EngineState :=
  match getEntry es.activeWorkflows workflowId with
  | none => .error ("No active workflow with ID " ++ workflowId)
  | some aw =>
    let aw' : ActiveWorkflow :=
      { aw with status := .cancelled, contextStatus := .cancelled, aborted := true }
    .ok { activeWorkflows := setEntry es.activeWorkflows workflowId aw',
          published := es.published ++ ["workflow:failed"] }

/-- `WorkflowEngine.getWorkflowStatus`: handle status, or `completed` when
no handle exists. -/
def getWorkflowStatus (es : EngineState) (workflowId : String) : WStatus :=
  match getEntry es.activeWorkflows workflowId with
  | none => .completed
  | some aw => aw.status

/-- Body of the `signal.addEventListener('abort', ...)` callback in
`executeWorkflow`: it rejects the run only under `if (!signal.aborted)`.
The listener runs when the signal has been aborted, i.e. with
`signalAborted = true`, so this returns whether the run gets rejected. -/
def abortListenerRejects (signalAborted : Bool) : Bool :=
  !signalAborted

/-! ## Event bus (`EventBus` in `core/IMPLEMENTATION.md`)

A subscriber's callback is opaque user code; its observable effects during
one delivery are: whether it throws, and which subscriptions it registers.
Both are made data on the subscription entry (`throws`, `registers`).
The subscription table is the flat list of entries in insertion order
(the JS `Map eventType → Set` iterates each per-type `Set` in insertion
order, which is exactly the per-type sublist of this list).  `publish`
records its callback invocations in a trace of
(subscriber fields, event type published) pairs.  The concurrent
`Promise.all` fan-out is sequentialised; callbacks are started in sorted
snapshot order, which is the order the JS code starts them in. -/

def SYSTEM_ERROR : String := "system:error"

/-- The data fields of a `SubscriptionInfo` entry, with the two observable
callback behaviours (`throws`, and for registered-during-delivery entries
the registration list lives on `SubscriptionInfo`). -/
structure SubFields where
  id : Nat
  eventType : String
  priority : Int
  once : Bool
  async : Bool
  throws : Bool
deriving DecidableEq, Repr

/-- A subscription-table entry: its fields plus the subscriptions its
callback registers while being delivered (one level deep; a subscription
registered during delivery is never itself invoked with a registration
opportunity inside the same `publish` of interest). -/
structure SubscriptionInfo extends SubFields where
  registers : List SubFields
deriving DecidableEq, Repr

/-- A freshly registered subscription as it enters the table. -/
def SubFields.toSub (c : SubFields) : SubscriptionInfo :=
  { c with registers := [] }

/-- The snapshot sort of `publish`:
`Array.from(subscribers).sort((a, b) => b.priority - a.priority)`.
JS `sort` is stable, and a stable descending sort is uniquely determined,
so the stable `insertionSort` with `b.priority ≤ a.priority` computes it. -/
def sortByPriority (subs : List SubscriptionInfo) : List SubscriptionInfo :=
  subs.insertionSort (fun a b => b.priority ≤ a.priority)

/-- `unsubscribe` applied to each collected `once` subscription: removal
from the per-event-type set, keyed by subscription identity (ids). -/
def removeOnce (eventType : String) (ids : List Nat)
    (table : List SubscriptionInfo) : List SubscriptionInfo :=
  table.filter (fun s => !(s.eventType == eventType && ids.contains s.id))

/-- The delivery loop of the nested `publish(SYSTEM_ERROR, ...)` call: the
reentrancy guard (`eventType !== CoreEventTypes.SYSTEM_ERROR`) is false
there, so a throwing handler republishes nothing.  State: table, trace,
collected `once` removals. -/
def errLoop : List SubscriptionInfo → List SubscriptionInfo →
    List (SubFields × String) → List Nat →
    List SubscriptionInfo × List (SubFields × String) × List Nat
  | [], table, trace, toRemove => (table, trace, toRemove)
  | s :: rest, table, trace, toRemove =>
    let trace := trace ++ [(s.toSubFields, SYSTEM_ERROR)]
    let table := table ++ s.registers.map SubFields.toSub
    if s.throws then errLoop rest table trace toRemove
    else
      let toRemove := if s.once then toRemove ++ [s.id] else toRemove
      errLoop rest table trace toRemove

/-- The nested `publish(SYSTEM_ERROR, ...)` issued from a catch block:
snapshot the current `system:error` subscribers, deliver, then remove its
own `once` subscriptions. -/
def errPublish (table : List SubscriptionInfo)
    (trace : List (SubFields × String)) :
    List SubscriptionInfo × List (SubFields × String) :=
  let snapshot := sortByPriority
    (table.filter (fun s => s.eventType == SYSTEM_ERROR))
  match errLoop snapshot table trace [] with
  | (table2, trace2, toRemove) => (removeOnce SYSTEM_ERROR toRemove table2, trace2)

/-- The delivery loop of a top-level `publish(eventType, data)` over the
sorted snapshot: invoke (trace entry), apply the callback's registrations,
then either catch the throw — republishing `system:error` unless the
reentrancy guard stops it — or collect the subscription for `once`
removal. -/
def pubLoop (eventType : String) : List SubscriptionInfo →
    List SubscriptionInfo → List (SubFields × String) → List Nat →
    List SubscriptionInfo × List (SubFields × String) × List Nat
  | [], table, trace, toRemove => (table, trace, toRemove)
  | s :: rest, table, trace, toRemove =>
    let trace := trace ++ [(s.toSubFields, eventType)]
    let table := table ++ s.registers.map SubFields.toSub
    if s.throws then
      if eventType == SYSTEM_ERROR then pubLoop eventType rest table trace toRemove
      else
        match errPublish table trace with
        | (table2, trace2) => pubLoop eventType rest table2 trace2 toRemove
    else
      let toRemove := if s.once then toRemove ++ [s.id] else toRemove
      pubLoop eventType rest table trace toRemove

/-- `EventBus.publish`: early return without subscribers, otherwise
snapshot + stable descending sort, delivery loop, and removal of the
collected `once` subscriptions.  Returns the table after the call and the
invocation trace. -/
def publish (table : List SubscriptionInfo) (eventType : String) :
    List SubscriptionInfo × List (SubFields × String) :=
  let subscribers := table.filter (fun s => s.eventType == eventType)
  if subscribers.isEmpty then (table, [])
  else
    let sortedSubscribers := sortByPriority subscribers
    match pubLoop eventType sortedSubscribers table [] [] with
    | (table2, trace, toRemove) => (removeOnce eventType toRemove table2, trace)

/-- The subscribers invoked with event `eventType` during
`publish table eventType`, in start order. -/
def invokedFor (table : List SubscriptionInfo) (eventType : String) :
    List SubFields :=
  ((publish table eventType).2.filter (fun pr => pr.2 == eventType)).map
    (fun pr => pr.1)

/-! ## Event propagator (`core/events/EventPropagator.ts`) -/

/-- The propagator's `Workflow` interface (`{id, nodes, connections}`). -/
structure PropWorkflow where
  id : String
  nodes : List Node
  connections : List Connection
deriving DecidableEq, Repr

/-- Propagation options: `propagateChain` and the optional per-edge
payload transform. -/
structure PropagationOptions where
  propagateChain : Bool
  transform : Option (Rec → String → String → Rec)

/-- An event filter (`(eventType, data) => boolean`). -/
abbrev EventFilter := String → Rec → Bool

/-- `EventPropagator.passesFilters`. -/
def passesFilters (filters : List EventFilter) (eventType : String)
    (data : Rec) : Bool :=
  if filters.isEmpty then true
  else filters.all (fun f => f eventType data)

/-- The node-addressed event type `node:<targetNodeId>:<eventType>`. -/
def nodeEventType (targetNodeId eventType : String) : String :=
  "node:" ++ targetNodeId ++ ":" ++ eventType

/-- Propagation state: the per-invocation `visitedNodes` set (in insertion
order) and the publishes issued on the bus, in order. -/
structure PropState where
  visitedNodes : List String
  publishes : List (String × Rec)
deriving DecidableEq, Repr

mutual
/-- `EventPropagator.propagateEventToConnectedNodes`: skip an already
visited source, mark it visited, then walk its outgoing connections. -/
def propagateToConnected (filters : List EventFilter)
    (options : PropagationOptions) (wf : PropWorkflow) (eventType : String) :
    Nat → String → Rec → PropState → PropState
  | 0, _, _, st => st
  | fuel+1, sourceNodeId, data, st =>
    if st.visitedNodes.contains sourceNodeId then st
    else
      let st := { st with visitedNodes := st.visitedNodes ++ [sourceNodeId] }
      propagateLoop filters options wf eventType fuel sourceNodeId data
        (wf.connections.filter (fun c => c.sourceNodeId == sourceNodeId)) st

/-- The per-connection loop: compose the per-edge payload
(`{...data, sourceNodeId}`, then the optional transform), apply the
filters, publish on `node:<target>:<eventType>`, and recurse into the
target when `propagateChain` is set. -/
def propagateLoop (filters : List EventFilter)
    (options : PropagationOptions) (wf : PropWorkflow) (eventType : String) :
    Nat → String → Rec → List Connection → PropState → PropState
  | 0, _, _, _, st => st
  | _+1, _, _, [], st => st
  | fuel+1, sourceNodeId, data, connection :: rest, st =>
    let targetNodeId := connection.targetNodeId
    let eventData := setKey data "sourceNodeId" (.str sourceNodeId)
    let eventData := match options.transform with
      | some t => t eventData sourceNodeId targetNodeId
      | none => eventData
    if passesFilters filters eventType eventData then
      let st := { st with
        publishes := st.publishes ++ [(nodeEventType targetNodeId eventType, eventData)] }
      let st := if options.propagateChain then
          propagateToConnected filters options wf eventType fuel targetNodeId eventData st
        else st
      propagateLoop filters options wf eventType fuel sourceNodeId data rest st
    else
      propagateLoop filters options wf eventType fuel sourceNodeId data rest st
end

/-- `EventPropagator.hasWorkflow` (`this.workflows.has(id)`). -/
def hasWorkflow (workflows : List (String × PropWorkflow))
    (workflowId : String) : Bool :=
  (getEntry workflows workflowId).isSome

/-- `EventPropagator.registerWorkflow`: throws when the id is already
registered (leaving the table as it was), otherwise records the workflow. -/
def registerWorkflow (workflows : List (String × PropWorkflow))
    (workflow : PropWorkflow) :
    Except String Unit × List (String × PropWorkflow) :=
  if hasWorkflow workflows workflow.id then
    (.error ("Workflow with ID " ++ workflow.id ++ " is already registered"),
     workflows)
  else
    (.ok (), workflows ++ [(workflow.id, workflow)])

/-- `EventPropagator.propagateEvent`: fail on an unregistered workflow,
clear the visited set, and start the walk at the source node. -/
def propagateEvent (filters : List EventFilter)
    (options : PropagationOptions)
    (workflows : List (String × PropWorkflow)) (workflowId : String)
    (sourceNodeId : String) (eventType : String) (data : Rec) (fuel : Nat) :
    Except String PropState :=
  match getEntry workflows workflowId with
  | none => .error ("Workflow with ID " ++ workflowId ++ " is not registered")
  | some wf =>
    .ok (propagateToConnected filters options wf eventType fuel sourceNodeId
      data { visitedNodes := [], publishes := [] })

/-! ## Concrete fixtures used by the theorems -/

/-- The spec's scenario S1: `A → B → C`, `A` emits `{v: 7}`, `B` doubles,
`C` passes through. -/
def wfS1 : Workflow :=
  { id := "wf-s1",
    nodes := [⟨"A", "const"⟩, ⟨"B", "double"⟩, ⟨"C", "sink"⟩],
    connections := [⟨"c1", "A", "v", "B", "v"⟩, ⟨"c2", "B", "v", "C", "v"⟩],
    entryPoints := ["A"], exitPoints := ["C"] }

/-- Node executors for S1. -/
def execS1 : Node → Rec → Except String Rec := fun node inputs =>
  if node.id == "A" then .ok [("v", .num 7)]
  else if node.id == "B" then
    match getKey inputs "v" with
    | some (.num k) => .ok [("v", .num (2 * k))]
    | _ => .error "missing input v"
  else .ok inputs

/-- The result the S1 run actually produces. -/
def resS1 : WorkflowResult :=
  { workflowId := "wf-s1", status := .running,
    outputs := [("C", [("v", .num 14)])], nodesExecuted := 3 }

/-- Entry node `E` with an incoming connection `U.p → E.k` and a seed
record stored (as `executeWorkflow` does) under `nodeOutputs["E"]`. -/
def nodeE : Node := ⟨"E", "t"⟩

/-- Workflow for the entry-node precedence check. -/
def wfC4 : Workflow :=
  { id := "wf-c4", nodes := [⟨"U", "t"⟩, nodeE],
    connections := [⟨"c1", "U", "p", "E", "k"⟩],
    entryPoints := ["E"], exitPoints := [] }

/-- Context mid-run: `U` produced `{p: 7}`, and the seed
`{k: 5, extra: 9}` sits in the entry node's `nodeOutputs` slot. -/
def ctxC4 : ExecutionContext :=
  { workflowId := "wf-c4",
    nodeOutputs := [("U", [("p", .num 7)]), ("E", [("k", .num 5), ("extra", .num 9)])],
    status := .running }

/-- Chain `A → B → C` with the connection list written in reverse order. -/
def wfChainRev : Workflow :=
  { id := "wf-chain", nodes := [⟨"A", "p"⟩, ⟨"B", "p"⟩, ⟨"C", "p"⟩],
    connections := [⟨"k2", "B", "o", "C", "i"⟩, ⟨"k1", "A", "o", "B", "i"⟩],
    entryPoints := ["A"], exitPoints := [] }

/-- The same chain with the connection list in forward order. -/
def wfChainFwd : Workflow :=
  { wfChainRev with
    connections := [⟨"k1", "A", "o", "B", "i"⟩, ⟨"k2", "B", "o", "C", "i"⟩] }

/-- An engine with one running workflow `wf1`. -/
def esRun : EngineState :=
  { activeWorkflows := [("wf1", ⟨.running, .running, false⟩)], published := [] }

/-- The state `stopWorkflow` leaves behind. -/
def esStopped : EngineState :=
  { activeWorkflows := [("wf1", ⟨.cancelled, .cancelled, true⟩)],
    published := ["workflow:failed"] }

/-- `A → B` where `A` outputs the falsy value `{v: 0}` and `B` echoes its
gathered inputs; both are exit points so the run result exposes them. -/
def wfC3 : Workflow :=
  { id := "wf-c3", nodes := [⟨"A", "zero"⟩, ⟨"B", "echo"⟩],
    connections := [⟨"c1", "A", "v", "B", "v"⟩],
    entryPoints := ["A"], exitPoints := ["A", "B"] }

/-- Executors for the falsy-value run: `A` emits `{v: 0}`, `B` echoes. -/
def execC3 : Node → Rec → Except String Rec := fun node inputs =>
  if node.id == "A" then .ok [("v", .num 0)] else .ok inputs

/-- A subscription table holding a single `once` subscriber whose callback
throws. -/
def tblOnceThrows : List SubscriptionInfo :=
  [⟨⟨1, "evt", 0, true, true, true⟩, []⟩]

/-- A `system:error` listener plus two throwing subscribers of `evt`. -/
def tblTwoThrow : List SubscriptionInfo :=
  [⟨⟨10, "system:error", 0, false, true, false⟩, []⟩,
   ⟨⟨11, "evt", 0, false, true, true⟩, []⟩,
   ⟨⟨12, "evt", 0, false, true, true⟩, []⟩]

/-- Two-node circular propagation workflow `a → b → a`. -/
def cycPW : PropWorkflow :=
  { id := "wf-cyc-p", nodes := [⟨"a", "p"⟩, ⟨"b", "p"⟩],
    connections := [⟨"c1", "a", "out1", "b", "in1"⟩,
                    ⟨"c2", "b", "out1", "a", "in1"⟩] }

/-- Diamond `s → l → t`, `s → r → t` for multi-path propagation. -/
def diaPW : PropWorkflow :=
  { id := "wf-dia",
    nodes := [⟨"s", "p"⟩, ⟨"l", "p"⟩, ⟨"r", "p"⟩, ⟨"t", "p"⟩],
    connections := [⟨"d1", "s", "o", "l", "i"⟩, ⟨"d2", "s", "o", "r", "i"⟩,
                    ⟨"d3", "l", "o", "t", "i"⟩, ⟨"d4", "r", "o", "t", "i"⟩] }

/-- Chain propagation with no transform. -/
def chainOpts : PropagationOptions := ⟨true, none⟩

/-- A registered workflow table for the propagator fixtures. -/
def pw1 : PropWorkflow := ⟨"w1", [], []⟩

/-- The outputs of the completed falsy-value run. -/
def resC3outputs : List (String × Rec) := [("A", [("v", .num 0)]), ("B", [])]

/-- Target node for the C3 witness. -/
def nodeV : Node := ⟨"V", "t"⟩

/-- Workflow with the single connection `U.p → V.q` for the C3 witness. -/
def wfC3W : Workflow :=
  { id := "wf-c3w", nodes := [⟨"U", "t"⟩, nodeV],
    connections := [⟨"cw", "U", "p", "V", "q"⟩],
    entryPoints := [], exitPoints := [] }

/-- Context with the truthy value `{p: 3}` recorded for `U`. -/
def ctxC3W : ExecutionContext :=
  { workflowId := "wf-c3w", nodeOutputs := [("U", [("p", .num 3)])],
    status := .running }

/-- The spec's scenario S3: the two-node cycle `A → B → A`. -/
def wfCyc : Workflow :=
  { id := "wf-cyc", nodes := [⟨"A", "p"⟩, ⟨"B", "p"⟩],
    connections := [⟨"c1", "A", "o", "B", "i"⟩, ⟨"c2", "B", "o", "A", "i"⟩],
    entryPoints := ["A"], exitPoints := [] }

/-- A connection-free (hence acyclic) two-node workflow. -/
def wfNoConn : Workflow :=
  { id := "wf-nc", nodes := [⟨"A", "p"⟩, ⟨"B", "p"⟩], connections := [],
    entryPoints := ["A"], exitPoints := [] }

/-- A well-formed table (distinct ids) for the C7 witness: a high-priority
`once` subscriber that does not throw, and an ordinary subscriber. -/
def tblC7W : List SubscriptionInfo :=
  [⟨⟨21, "evt", 5, true, true, false⟩, []⟩,
   ⟨⟨22, "evt", 1, false, true, false⟩, []⟩]

/-- The snapshot sort's relation is total and transitive (needed for
`List.sorted_insertionSort`). -/
instance : IsTotal SubscriptionInfo (fun a b => b.priority ≤ a.priority) :=
  ⟨fun a b => le_total b.priority a.priority⟩

instance : IsTrans SubscriptionInfo (fun a b => b.priority ≤ a.priority) :=
  ⟨fun _ _ _ h h2 => le_trans h2 h⟩

/-! ## Association-list toolkit -/

theorem getEntry_cons {α : Type} (kv : String × α) (l : List (String × α))
    (k : String) :
    getEntry (kv :: l) k = if kv.1 == k then some kv.2 else getEntry l k := by
  cases hb : kv.1 == k <;> simp [getEntry, List.find?, hb]

theorem getEntry_append_right {α : Type} (ws : List (String × α)) (k : String)
    (v : α) (h : getEntry ws k = none) :
    getEntry (ws ++ [(k, v)]) k = some v := by
  induction ws with
  | nil => simp [getEntry]
  | cons kv ws ih =>
    rw [List.cons_append, getEntry_cons]
    rw [getEntry_cons] at h
    by_cases hb : kv.1 == k
    · simp [hb] at h
    · simp only [hb, if_false] at h ⊢
      exact ih h

theorem getEntry_map_set {α : Type} (k : String) (v : α) :
    ∀ m : List (String × α),
      m.any (fun kv => kv.1 == k) = true →
      getEntry (m.map (fun kv => if kv.1 == k then (k, v) else kv)) k =
        some v := by
  intro m
  induction m with
  | nil => intro h; simp at h
  | cons kv l ih =>
    intro h
    by_cases hb : (kv.1 == k) = true
    · simp only [List.map_cons, hb, if_true]
      rw [getEntry_cons]
      simp
    · have hb' : (kv.1 == k) = false := Bool.eq_false_iff.mpr hb
      simp only [List.map_cons, hb', Bool.false_eq_true, if_false]
      rw [getEntry_cons]
      simp only [hb', Bool.false_eq_true, if_false]
      apply ih
      simpa [hb'] using h

theorem getEntry_map_set_ne {α : Type} (k k' : String) (v : α) (h : k' ≠ k) :
    ∀ m : List (String × α),
      getEntry (m.map (fun kv => if kv.1 == k then (k, v) else kv)) k' =
        getEntry m k' := by
  intro m
  induction m with
  | nil => rfl
  | cons kv l ih =>
    by_cases hb : (kv.1 == k) = true
    · have hkv : kv.1 = k := by simpa using hb
      simp only [List.map_cons, hb, if_true]
      rw [getEntry_cons, getEntry_cons]
      have h1 : (k == k') = false := beq_eq_false_iff_ne.mpr (Ne.symm h)
      have h2 : (kv.1 == k') = false := by
        rw [hkv]; exact h1
      simp only [h1, h2, Bool.false_eq_true, if_false]
      exact ih
    · have hb' : (kv.1 == k) = false := Bool.eq_false_iff.mpr hb
      simp only [List.map_cons, hb', Bool.false_eq_true, if_false]
      rw [getEntry_cons, getEntry_cons]
      by_cases hc : (kv.1 == k') = true
      · simp [hc]
      · have hc' := Bool.eq_false_iff.mpr hc
        simp only [hc', Bool.false_eq_true, if_false]
        exact ih

theorem getEntry_of_any_eq_false {α : Type} (m : List (String × α))
    (k : String) (h : m.any (fun kv => kv.1 == k) = false) :
    getEntry m k = none := by
  unfold getEntry
  have : m.find? (fun kv => kv.1 == k) = none := by
    rw [List.find?_eq_none]
    intro kv hkv
    intro hw
    have hh : m.any (fun kv => kv.1 == k) = true :=
      List.any_eq_true.mpr ⟨kv, hkv, hw⟩
    rw [h] at hh
    simp at hh
  rw [this]
  rfl

theorem getEntry_setEntry_same {α : Type} (m : List (String × α))
    (k : String) (v : α) : getEntry (setEntry m k v) k = some v := by
  unfold setEntry
  by_cases hany : m.any (fun kv => kv.1 == k) = true
  · simp only [hany, if_true]
    exact getEntry_map_set k v m hany
  · have hany' := Bool.eq_false_iff.mpr hany
    simp only [hany', Bool.false_eq_true, if_false]
    exact getEntry_append_right m k v (getEntry_of_any_eq_false m k hany')

theorem getEntry_append_sing_ne {α : Type} (k k' : String) (v : α)
    (h : k' ≠ k) :
    ∀ m : List (String × α), getEntry (m ++ [(k, v)]) k' = getEntry m k' := by
  intro m
  induction m with
  | nil =>
    show getEntry [(k, v)] k' = getEntry [] k'
    rw [getEntry_cons]
    simp [beq_eq_false_iff_ne.mpr (Ne.symm h), getEntry]
  | cons kv l ih =>
    rw [List.cons_append, getEntry_cons, getEntry_cons]
    by_cases hc : (kv.1 == k') = true
    · simp [hc]
    · have hc' := Bool.eq_false_iff.mpr hc
      simp only [hc', Bool.false_eq_true, if_false]
      exact ih

theorem getEntry_setEntry_ne {α : Type} (m : List (String × α))
    (k k' : String) (v : α) (h : k' ≠ k) :
    getEntry (setEntry m k v) k' = getEntry m k' := by
  unfold setEntry
  by_cases hany : m.any (fun kv => kv.1 == k) = true
  · simp only [hany, if_true]
    exact getEntry_map_set_ne k k' v h m
  · have hany' := Bool.eq_false_iff.mpr hany
    simp only [hany', Bool.false_eq_true, if_false]
    exact getEntry_append_sing_ne k k' v h m

/-! ### Equations of the DFS visit functions -/

theorem visit_zero (wf : Workflow) (n : String) (st : TSState) :
    visit wf 0 n st = .error fuelMsg := by
  simp [visit]

theorem visit_succ_temp_mem (wf : Workflow) (fuel : Nat) (n : String)
    (st : TSState) (h : n ∈ st.temp) :
    visit wf (fuel+1) n st = .error (cycleMsg n) := by
  simp [visit, h]

theorem visit_succ_visited (wf : Workflow) (fuel : Nat) (n : String)
    (st : TSState) (h1 : n ∉ st.temp) (h2 : n ∈ st.visited) :
    visit wf (fuel+1) n st = .ok st := by
  simp [visit, h1, h2]

theorem visit_succ_push (wf : Workflow) (fuel : Nat) (n : String)
    (st : TSState) (h1 : n ∉ st.temp) (h2 : n ∉ st.visited) :
    visit wf (fuel+1) n st =
      match visitList wf fuel (getNodeDependencies n wf)
          { st with temp := n :: st.temp } with
      | .error e => .error e
      | .ok st2 =>
          .ok { temp := st2.temp.erase n, visited := st2.visited ++ [n],
                result := st2.result ++ [n] } := by
  simp [visit, h1, h2]

theorem visitList_zero (wf : Workflow) (ds : List String) (st : TSState) :
    visitList wf 0 ds st = .error fuelMsg := by
  simp [visitList]

theorem visitList_nil (wf : Workflow) (fuel : Nat) (st : TSState) :
    visitList wf (fuel+1) [] st = .ok st := by
  simp [visitList]

theorem visitList_cons (wf : Workflow) (fuel : Nat) (d : String)
    (ds : List String) (st : TSState) :
    visitList wf (fuel+1) (d :: ds) st =
      match visit wf fuel d st with
      | .error e => .error e
      | .ok st' => visitList wf fuel ds st' := by
  simp [visitList]

/-- A completed `visit` (and `visitList`) leaves the DFS stack exactly as
it found it: pushes and pops balance. -/
theorem visit_temp_preserved (wf : Workflow) :
    ∀ fuel : Nat,
      (∀ n st st', visit wf fuel n st = .ok st' → st'.temp = st.temp) ∧
      (∀ ds st st', visitList wf fuel ds st = .ok st' → st'.temp = st.temp) := by
  intro fuel
  induction fuel with
  | zero =>
    constructor
    · intro n st st' h; rw [visit_zero] at h; exact absurd h (by simp)
    · intro ds st st' h; rw [visitList_zero] at h; exact absurd h (by simp)
  | succ fuel ih =>
    obtain ⟨ihv, ihl⟩ := ih
    constructor
    · intro n st st' h
      by_cases h1 : n ∈ st.temp
      · rw [visit_succ_temp_mem wf fuel n st h1] at h
        exact absurd h (by simp)
      · by_cases h2 : n ∈ st.visited
        · rw [visit_succ_visited wf fuel n st h1 h2] at h
          cases h
          rfl
        · rw [visit_succ_push wf fuel n st h1 h2] at h
          rcases hvl : visitList wf fuel (getNodeDependencies n wf)
              { st with temp := n :: st.temp } with e | st2
          · rw [hvl] at h; exact absurd h (by simp)
          · rw [hvl] at h
            cases h
            have htemp := ihl _ _ _ hvl
            simp only at htemp
            show st2.temp.erase n = st.temp
            rw [htemp]
            exact List.erase_cons_head n st.temp
    · intro ds st st' h
      match ds with
      | [] =>
        rw [visitList_nil] at h
        cases h
        rfl
      | d :: ds' =>
        rw [visitList_cons] at h
        rcases hv : visit wf fuel d st with e | stm
        · rw [hv] at h; exact absurd h (by simp)
        · rw [hv] at h
          exact (ihl ds' stm st' h).trans (ihv d st stm hv)

/-- Soundness of a completed DFS: the state invariant is preserved, the
stack is restored, the result only grows, the visited node ends up in the
result, and every newly pushed node was not on the entry stack. -/
theorem visit_ok_sound (wf : Workflow) :
    ∀ fuel : Nat,
      (∀ n st st', TSInv wf st → visit wf fuel n st = .ok st' →
        TSInv wf st' ∧ st'.temp = st.temp ∧
        (∃ t, st'.result = st.result ++ t) ∧ n ∈ st'.result ∧
        (∀ x ∈ st'.result, x ∈ st.result ∨ x ∉ st.temp)) ∧
      (∀ ds st st', TSInv wf st → visitList wf fuel ds st = .ok st' →
        TSInv wf st' ∧ st'.temp = st.temp ∧
        (∃ t, st'.result = st.result ++ t) ∧ (∀ d ∈ ds, d ∈ st'.result) ∧
        (∀ x ∈ st'.result, x ∈ st.result ∨ x ∉ st.temp)) := by
  intro fuel
  induction fuel with
  | zero =>
    constructor
    · intro n st st' _ h; rw [visit_zero] at h; exact absurd h (by simp)
    · intro ds st st' _ h; rw [visitList_zero] at h; exact absurd h (by simp)
  | succ fuel ih =>
    obtain ⟨ihv, ihl⟩ := ih
    constructor
    · intro n st st' hinv h
      by_cases h1 : n ∈ st.temp
      · rw [visit_succ_temp_mem wf fuel n st h1] at h
        exact absurd h (by simp)
      · by_cases h2 : n ∈ st.visited
        · rw [visit_succ_visited wf fuel n st h1 h2] at h
          cases h
          exact ⟨hinv, rfl, ⟨[], by simp⟩, (hinv.1 n).mp h2,
            fun x hx => Or.inl hx⟩
        · rw [visit_succ_push wf fuel n st h1 h2] at h
          rcases hvl : visitList wf fuel (getNodeDependencies n wf)
              { st with temp := n :: st.temp } with e | st2
          · rw [hvl] at h; exact absurd h (by simp)
          · rw [hvl] at h
            cases h
            obtain ⟨hinv2, htemp2, ⟨t2, hres2⟩, hdeps2, hnew2⟩ :=
              ihl (getNodeDependencies n wf) { st with temp := n :: st.temp }
                st2 hinv hvl
            have htemp2' : st2.temp = n :: st.temp := htemp2
            have hn_res : n ∉ st.result := fun hmem => h2 ((hinv.1 n).mpr hmem)
            have hn_res2 : n ∉ st2.result := by
              intro hmem
              rcases hnew2 n hmem with hcase | hcase
              · exact hn_res hcase
              · exact hcase (by simp)
            refine ⟨⟨?_, ?_, ?_, ?_, ?_⟩, ?_, ?_, ?_, ?_⟩
            · intro x
              show x ∈ st2.visited ++ [n] ↔ x ∈ st2.result ++ [n]
              simp only [List.mem_append]
              rw [hinv2.1 x]
            · show (st2.result ++ [n]).Nodup
              rw [List.nodup_append]
              refine ⟨hinv2.2.1, List.nodup_singleton n, ?_⟩
              intro a ha hb
              have : a = n := by simpa using hb
              subst this
              exact hn_res2 ha
            · intro m hm d hd
              rcases List.mem_append.mp hm with hm | hm
              · exact List.mem_append.mpr
                  (Or.inl (hinv2.2.2.1 m hm d hd))
              · have : m = n := by simpa using hm
                subst this
                exact List.mem_append.mpr (Or.inl (hdeps2 d hd))
            · show (st2.result ++ [n]).Pairwise
                (fun x y => y ∉ getNodeDependencies x wf)
              rw [List.pairwise_append]
              refine ⟨hinv2.2.2.2.1, List.pairwise_singleton _ _, ?_⟩
              intro a ha b hb
              have : b = n := by simpa using hb
              subst this
              intro hdep
              exact hn_res2 (hinv2.2.2.1 a ha b hdep)
            · intro m hm
              rcases List.mem_append.mp hm with hm | hm
              · exact hinv2.2.2.2.2 m hm
              · have : m = n := by simpa using hm
                subst this
                intro hdep
                exact hn_res2 (hdeps2 m hdep)
            · show st2.temp.erase n = st.temp
              rw [htemp2']
              exact List.erase_cons_head n st.temp
            · exact ⟨t2 ++ [n], by
                show st2.result ++ [n] = st.result ++ (t2 ++ [n])
                rw [← List.append_assoc]
                have : st2.result = st.result ++ t2 := hres2
                rw [this]⟩
            · show n ∈ st2.result ++ [n]
              simp
            · intro x hx
              rcases List.mem_append.mp hx with hx | hx
              · rcases hnew2 x hx with hx2 | hx2
                · exact Or.inl hx2
                · refine Or.inr (fun hmem => hx2 ?_)
                  show x ∈ n :: st.temp
                  exact List.mem_cons_of_mem n hmem
              · have : x = n := by simpa using hx
                subst this
                exact Or.inr h1
    · intro ds st st' hinv h
      match ds with
      | [] =>
        rw [visitList_nil] at h
        cases h
        exact ⟨hinv, rfl, ⟨[], by simp⟩, by simp, fun x hx => Or.inl hx⟩
      | d :: ds' =>
        rw [visitList_cons] at h
        rcases hv : visit wf fuel d st with e | stm
        · rw [hv] at h; exact absurd h (by simp)
        · rw [hv] at h
          obtain ⟨hinv1, htemp1, ⟨t1, hres1⟩, hdmem, hnew1⟩ :=
            ihv d st stm hinv hv
          obtain ⟨hinv2, htemp2, ⟨t2, hres2⟩, hds2, hnew2⟩ :=
            ihl ds' stm st' hinv1 h
          refine ⟨hinv2, htemp2.trans htemp1,
            ⟨t1 ++ t2, by rw [hres2, hres1, List.append_assoc]⟩, ?_, ?_⟩
          · intro d' hd'
            rcases List.mem_cons.mp hd' with hd' | hd'
            · subst hd'
              rw [hres2]
              exact List.mem_append.mpr (Or.inl hdmem)
            · exact hds2 d' hd'
          · intro x hx
            rcases hnew2 x hx with hx2 | hx2
            · rcases hnew1 x hx2 with hx3 | hx3
              · exact Or.inl hx3
              · exact Or.inr hx3
            · rw [htemp1] at hx2
              exact Or.inr hx2

/-- Every error of the DFS is either the artificial fuel marker or the
cycle error, and a cycle error names a node that really lies on a
directed dependency cycle. -/
theorem visit_error_cycle (wf : Workflow) :
    ∀ fuel : Nat,
      (∀ n st msg, TempChainInv wf st.temp →
        (st.temp = [] ∨ ∃ hd rest, st.temp = hd :: rest ∧
          n ∈ getNodeDependencies hd wf) →
        visit wf fuel n st = .error msg →
        msg = fuelMsg ∨
          ∃ m, msg = cycleMsg m ∧ Relation.TransGen (edgeP wf) m m) ∧
      (∀ ds st msg, TempChainInv wf st.temp →
        (st.temp = [] ∨ ∃ hd rest, st.temp = hd :: rest ∧
          ∀ d ∈ ds, d ∈ getNodeDependencies hd wf) →
        visitList wf fuel ds st = .error msg →
        msg = fuelMsg ∨
          ∃ m, msg = cycleMsg m ∧ Relation.TransGen (edgeP wf) m m) := by
  intro fuel
  induction fuel with
  | zero =>
    constructor
    · intro n st msg _ _ h
      rw [visit_zero] at h
      cases h
      exact Or.inl rfl
    · intro ds st msg _ _ h
      rw [visitList_zero] at h
      cases h
      exact Or.inl rfl
  | succ fuel ih =>
    obtain ⟨ihv, ihl⟩ := ih
    constructor
    · intro n st msg hchain hlink h
      by_cases h1 : n ∈ st.temp
      · rw [visit_succ_temp_mem wf fuel n st h1] at h
        cases h
        right
        refine ⟨n, rfl, ?_⟩
        rcases hlink with hempty | ⟨hd, rest, htemp, hdep⟩
        · rw [hempty] at h1; simp at h1
        · have hc := hchain
          rw [htemp] at hc
          have hrtg : Relation.ReflTransGen (edgeP wf) hd n :=
            hc n (htemp ▸ h1)
          exact Relation.TransGen.head' hdep hrtg
      · by_cases h2 : n ∈ st.visited
        · rw [visit_succ_visited wf fuel n st h1 h2] at h
          exact absurd h (by simp)
        · rw [visit_succ_push wf fuel n st h1 h2] at h
          rcases hvl : visitList wf fuel (getNodeDependencies n wf)
              { st with temp := n :: st.temp } with e | st2
          · rw [hvl] at h
            cases h
            refine ihl (getNodeDependencies n wf)
              { st with temp := n :: st.temp } msg ?_ ?_ hvl
            · show TempChainInv wf (n :: st.temp)
              intro x hx
              rcases List.mem_cons.mp hx with hx | hx
              · subst hx; exact Relation.ReflTransGen.refl
              · rcases hlink with hempty | ⟨hd, rest, htemp, hdep⟩
                · rw [hempty] at hx; simp at hx
                · have hc := hchain
                  rw [htemp] at hc
                  exact Relation.ReflTransGen.head hdep (hc x (htemp ▸ hx))
            · exact Or.inr ⟨n, st.temp, rfl, fun d hd => hd⟩
          · rw [hvl] at h
            exact absurd h (by simp)
    · intro ds st msg hchain hlink h
      match ds with
      | [] =>
        rw [visitList_nil] at h
        exact absurd h (by simp)
      | d :: ds' =>
        rw [visitList_cons] at h
        rcases hv : visit wf fuel d st with e | stm
        · rw [hv] at h
          cases h
          refine ihv d st msg hchain ?_ hv
          rcases hlink with hempty | ⟨hd, rest, htemp, hall⟩
          · exact Or.inl hempty
          · exact Or.inr ⟨hd, rest, htemp, hall d (by simp)⟩
        · rw [hv] at h
          have htp := (visit_temp_preserved wf fuel).1 d st stm hv
          refine ihl ds' stm msg ?_ ?_ h
          · rw [htp]; exact hchain
          · rw [htp]
            rcases hlink with hempty | ⟨hd, rest, htemp, hall⟩
            · exact Or.inl hempty
            · exact Or.inr ⟨hd, rest, htemp,
                fun d' hd' => hall d' (by simp [hd'])⟩

theorem cycleMsg_ne_fuelMsg (n : String) : cycleMsg n ≠ fuelMsg := by
  intro h
  have hlen := congrArg String.length h
  rw [cycleMsg, fuelMsg, String.length_append] at hlen
  have h1 : ("Workflow contains a cycle involving node ").length = 41 := by
    decide
  have h2 : ("topologicalSort: out of fuel").length = 28 := by decide
  rw [h1, h2] at hlen
  omega

theorem deps_mem_universe (wf : Workflow) (m d : String)
    (hd : d ∈ getNodeDependencies m wf) : d ∈ tsUniverse wf := by
  unfold getNodeDependencies at hd
  rcases List.mem_map.mp hd with ⟨c, hc, rfl⟩
  have hc' : c ∈ wf.connections := (List.mem_filter.mp hc).1
  unfold tsUniverse
  rw [List.mem_dedup]
  exact List.mem_append.mpr (Or.inr (List.mem_map.mpr ⟨c, hc', rfl⟩))

theorem deps_length_le (wf : Workflow) (m : String) :
    (getNodeDependencies m wf).length ≤ wf.connections.length := by
  unfold getNodeDependencies
  rw [List.length_map]
  exact List.length_filter_le _ _

/-- Pushing a fresh universe node onto the stack strictly shrinks the
unstacked part of the universe. -/
theorem measure_push (wf : Workflow) (n : String) (temp : List String)
    (hn : n ∈ tsUniverse wf) (hnt : n ∉ temp) :
    ((tsUniverse wf).filter (fun x => !((n :: temp).contains x))).length + 1 ≤
      ((tsUniverse wf).filter (fun x => !(temp.contains x))).length := by
  have hsub : (tsUniverse wf).filter (fun x => !((n :: temp).contains x)) =
      ((tsUniverse wf).filter (fun x => !(temp.contains x))).filter
        (fun x => !(x == n)) := by
    rw [List.filter_filter]
    apply List.filter_congr
    intro x _
    simp [List.contains_cons]
    tauto
  rw [hsub]
  have hmem : n ∈ (tsUniverse wf).filter (fun x => !(temp.contains x)) :=
    List.mem_filter.mpr ⟨hn, by simp [hnt]⟩
  have hlt : (((tsUniverse wf).filter (fun x => !(temp.contains x))).filter
        (fun x => !(x == n))).length <
      ((tsUniverse wf).filter (fun x => !(temp.contains x))).length :=
    List.length_filter_lt_length_iff_exists.mpr ⟨n, hmem, by simp⟩
  omega

/-- With fuel at least `|universe off the stack| * (|connections| + 2)`
plus the pending list, the DFS never runs out of fuel. -/
theorem visit_sufficient_fuel (wf : Workflow) :
    ∀ fuel : Nat,
      (∀ n st, st.temp.Nodup → (∀ x ∈ st.temp, x ∈ tsUniverse wf) →
        n ∈ tsUniverse wf →
        ((tsUniverse wf).filter (fun x => !(st.temp.contains x))).length *
            (wf.connections.length + 2) + 1 ≤ fuel →
        visit wf fuel n st ≠ .error fuelMsg) ∧
      (∀ ds st, st.temp.Nodup → (∀ x ∈ st.temp, x ∈ tsUniverse wf) →
        (∀ d ∈ ds, d ∈ tsUniverse wf) →
        ((tsUniverse wf).filter (fun x => !(st.temp.contains x))).length *
            (wf.connections.length + 2) + ds.length + 1 ≤ fuel →
        visitList wf fuel ds st ≠ .error fuelMsg) := by
  intro fuel
  induction fuel with
  | zero =>
    constructor
    · intro n st _ _ _ hb; exact absurd hb (by omega)
    · intro ds st _ _ _ hb; exact absurd hb (by omega)
  | succ fuel ih =>
    obtain ⟨ihv, ihl⟩ := ih
    constructor
    · intro n st hnd hsub hn hb h
      by_cases h1 : n ∈ st.temp
      · rw [visit_succ_temp_mem wf fuel n st h1] at h
        exact cycleMsg_ne_fuelMsg n (Except.error.inj h)
      · by_cases h2 : n ∈ st.visited
        · rw [visit_succ_visited wf fuel n st h1 h2] at h
          exact absurd h (by simp)
        · rw [visit_succ_push wf fuel n st h1 h2] at h
          rcases hvl : visitList wf fuel (getNodeDependencies n wf)
              { st with temp := n :: st.temp } with e | st2
          · rw [hvl] at h
            have he : e = fuelMsg := Except.error.inj h
            subst he
            refine ihl (getNodeDependencies n wf)
              { st with temp := n :: st.temp }
              (List.nodup_cons.mpr ⟨h1, hnd⟩) ?_
              (fun d hd => deps_mem_universe wf n d hd) ?_ hvl
            · intro x hx
              rcases List.mem_cons.mp hx with hx | hx
              · subst hx; exact hn
              · exact hsub x hx
            · have hdec := measure_push wf n st.temp hn h1
              have hdlen := deps_length_le wf n
              set m1 := ((tsUniverse wf).filter
                (fun x => !((n :: st.temp).contains x))).length with hm1
              set m := ((tsUniverse wf).filter
                (fun x => !(st.temp.contains x))).length with hm
              show m1 * (wf.connections.length + 2) +
                (getNodeDependencies n wf).length + 1 ≤ fuel
              have hstep : m1 * (wf.connections.length + 2) +
                  (getNodeDependencies n wf).length + 1 ≤
                  (m1 + 1) * (wf.connections.length + 2) := by
                have : (m1 + 1) * (wf.connections.length + 2) =
                    m1 * (wf.connections.length + 2) +
                      (wf.connections.length + 2) := by ring
                omega
              have hmul : (m1 + 1) * (wf.connections.length + 2) ≤
                  m * (wf.connections.length + 2) :=
                Nat.mul_le_mul_right _ (by omega)
              omega
          · rw [hvl] at h
            exact absurd h (by simp)
    · intro ds st hnd hsub hds hb h
      match ds with
      | [] =>
        rw [visitList_nil] at h
        exact absurd h (by simp)
      | d :: ds' =>
        rw [visitList_cons] at h
        rcases hv : visit wf fuel d st with e | stm
        · rw [hv] at h
          have he : e = fuelMsg := Except.error.inj h
          subst he
          refine ihv d st hnd hsub (hds d (by simp)) ?_ hv
          simp only [List.length_cons] at hb
          omega
        · rw [hv] at h
          have htp := (visit_temp_preserved wf fuel).1 d st stm hv
          refine ihl ds' stm ?_ ?_ (fun d' hd' => hds d' (by simp [hd'])) ?_ h
          · rw [htp]; exact hnd
          · rw [htp]; exact hsub
          · rw [htp]
            simp only [List.length_cons] at hb
            omega

/-- With the fuel `topologicalSort` supplies, the artificial fuel error
never occurs: the model computes exactly what the unbounded source
recursion computes. -/
theorem topologicalSort_ne_fuelMsg (wf : Workflow) :
    topologicalSort wf ≠ .error fuelMsg := by
  intro h
  unfold topologicalSort at h
  rcases hvl : visitList wf (tsFuel wf)
      (wf.entryPoints ++ wf.nodes.map (fun n => n.id))
      { temp := [], visited := [], result := [] } with e | st
  · rw [hvl] at h
    simp only at h
    have he : e = fuelMsg := Except.error.inj h
    subst he
    have hfil : (tsUniverse wf).filter
        (fun x => !(([] : List String).contains x)) = tsUniverse wf := by
      simp
    refine (visit_sufficient_fuel wf (tsFuel wf)).2
      (wf.entryPoints ++ wf.nodes.map (fun n => n.id))
      { temp := [], visited := [], result := [] }
      List.nodup_nil (by intro x hx; simp at hx) ?_ ?_ hvl
    · intro d hd
      unfold tsUniverse
      rw [List.mem_dedup]
      rcases List.mem_append.mp hd with hd | hd
      · exact List.mem_append.mpr (Or.inl (List.mem_append.mpr (Or.inl hd)))
      · exact List.mem_append.mpr (Or.inl (List.mem_append.mpr (Or.inr hd)))
    · show ((tsUniverse wf).filter
          (fun x => !(([] : List String).contains x))).length *
          (wf.connections.length + 2) +
          (wf.entryPoints ++ wf.nodes.map (fun n => n.id)).length + 1 ≤
          tsFuel wf
      rw [hfil]
      unfold tsFuel
      rw [List.length_append, List.length_map]
      omega
  · rw [hvl] at h
    simp at h

/-- In a `ResInv` order, a dependency strictly precedes its dependent. -/
theorem resInv_dep_before (wf : Workflow) (r : List String)
    (hres : ResInv wf r) (a b : String) (hedge : edgeP wf a b) (hb : b ∈ r) :
    a ∈ r ∧ r.indexOf a < r.indexOf b := by
  obtain ⟨hnd, hcomp, hpw, hself⟩ := hres
  have ha : a ∈ r := hcomp b hb a hedge
  refine ⟨ha, ?_⟩
  by_contra hle
  push_neg at hle
  have hia := List.indexOf_lt_length.mpr ha
  have hib := List.indexOf_lt_length.mpr hb
  rcases lt_or_eq_of_le hle with hlt | heq
  · have hp := List.pairwise_iff_getElem.mp hpw (r.indexOf b) (r.indexOf a)
      hib hia hlt
    rw [List.getElem_indexOf hib, List.getElem_indexOf hia] at hp
    exact hp hedge
  · have hba : b = a := (List.indexOf_inj hb ha).mp heq
    subst hba
    exact hself b hb hedge

/-- In a `ResInv` order, dependency paths of any length go strictly
backwards in the order: no member lies on a dependency cycle. -/
theorem resInv_transGen_before (wf : Workflow) (r : List String)
    (hres : ResInv wf r) (a b : String)
    (htg : Relation.TransGen (edgeP wf) a b) (hb : b ∈ r) :
    a ∈ r ∧ r.indexOf a < r.indexOf b := by
  induction htg with
  | single hedge => exact resInv_dep_before wf r hres _ _ hedge hb
  | tail htg' hedge ih =>
    obtain ⟨hc, hcb⟩ := resInv_dep_before wf r hres _ _ hedge hb
    obtain ⟨ha, hac⟩ := ih hc
    exact ⟨ha, lt_trans hac hcb⟩

/-- A successful sort yields an order satisfying `ResInv` that contains
every entry point and every workflow node. -/
theorem topologicalSort_ok_facts (wf : Workflow) (order : List String)
    (h : topologicalSort wf = .ok order) :
    ResInv wf order ∧
    (∀ s, (s ∈ wf.entryPoints ∨ s ∈ wf.nodes.map (fun n => n.id)) →
      s ∈ order) := by
  unfold topologicalSort at h
  rcases hvl : visitList wf (tsFuel wf)
      (wf.entryPoints ++ wf.nodes.map (fun n => n.id))
      { temp := [], visited := [], result := [] } with e | st
  · rw [hvl] at h; simp at h
  · rw [hvl] at h
    simp only at h
    have hord : st.result = order := Except.ok.inj h
    have hinv0 : TSInv wf { temp := [], visited := [], result := [] } :=
      ⟨fun x => Iff.rfl,
       ⟨List.nodup_nil, by intro n hn; simp at hn, List.Pairwise.nil,
        by intro n hn; simp at hn⟩⟩
    obtain ⟨hinv, _, _, hmem, _⟩ :=
      (visit_ok_sound wf (tsFuel wf)).2 _ _ _ hinv0 hvl
    constructor
    · rw [← hord]; exact hinv.2
    · intro s hs
      rw [← hord]
      exact hmem s (List.mem_append.mpr hs)

/-- Every node the sort can reach lands in a successful order. -/
theorem reached_mem_order (wf : Workflow) (order : List String)
    (hres : ResInv wf order)
    (hstarts : ∀ s, (s ∈ wf.entryPoints ∨ s ∈ wf.nodes.map (fun n => n.id)) →
      s ∈ order)
    (x : String) (hx : ReachedBySort wf x) : x ∈ order := by
  obtain ⟨s, hs, hrtg⟩ := hx
  induction hrtg using Relation.ReflTransGen.head_induction_on with
  | refl => exact hstarts s hs
  | head h' h ih => exact hres.2.1 _ ih _ h'

/-- A failing sort fails with the cycle error, naming a node on a real
dependency cycle. -/
theorem topologicalSort_error_facts (wf : Workflow) (e : String)
    (h : topologicalSort wf = .error e) :
    ∃ m, e = cycleMsg m ∧ Relation.TransGen (edgeP wf) m m := by
  unfold topologicalSort at h
  rcases hvl : visitList wf (tsFuel wf)
      (wf.entryPoints ++ wf.nodes.map (fun n => n.id))
      { temp := [], visited := [], result := [] } with e0 | st
  · rw [hvl] at h
    simp only at h
    have he : e0 = e := Except.error.inj h
    subst he
    rcases (visit_error_cycle wf (tsFuel wf)).2 _ _ _ (by trivial)
        (Or.inl rfl) hvl with hfuel | hcyc
    · exfalso
      apply topologicalSort_ne_fuelMsg wf
      unfold topologicalSort
      rw [hvl, hfuel]
    · exact hcyc
  · rw [hvl] at h; simp at h

theorem getKey_eq_none_forall (r : Rec) (k : String)
    (h : getKey r k = none) : ∀ kv ∈ r, kv.1 ≠ k := by
  intro kv hkv heq
  unfold getKey getEntry at h
  cases hf : r.find? (fun kv => kv.1 == k) with
  | none =>
    have := List.find?_eq_none.mp hf kv hkv
    exact this (by simp [heq])
  | some x => rw [hf] at h; simp at h

theorem getKey_assign_of_not_mem (b : Rec) (k : String)
    (h : ∀ kv ∈ b, kv.1 ≠ k) :
    ∀ a : Rec, getKey (assign a b) k = getKey a k := by
  induction b with
  | nil => intro a; rfl
  | cons kv bs ih =>
    intro a
    have hstep : getKey (setKey a kv.1 kv.2) k = getKey a k :=
      getEntry_setEntry_ne a kv.1 k kv.2 (Ne.symm (h kv (by simp)))
    have htail : ∀ kv' ∈ bs, kv'.1 ≠ k := fun kv' hm => h kv' (by simp [hm])
    show getKey (assign (setKey a kv.1 kv.2) bs) k = getKey a k
    rw [ih htail (setKey a kv.1 kv.2), hstep]

/-! ## Claim theorems -/

/-- **C1** (code bug): a run that finishes without failure, cancellation or
timeout produces a result whose `status` is `running`, not `completed`:
`createWorkflowResult` copies `context.status`, which nothing on the
success path ever updates (`activeWorkflow.status` is set to `completed`
only after the result has been built, and only on the handle).  On the
spec's scenario S1 the run completes with the expected outputs and node
count, but `result.status = running`. -/
theorem C1_successful_run_status_running :
    executeWorkflowSeq execS1 wfS1 none = .ok resS1 ∧
    resS1.status = .running ∧ resS1.status ≠ .completed := by decide

/-- **C4** (code bug): for an entry node with a connection-sourced value
and a seeded initial input under the same key, the gathered inputs hold
the *seed*, not the connection value: `Object.assign(inputs, initialInputs)`
lets `initialInputs` win, contradicting the source's own comment
"(connection inputs take precedence)".  Here the connection delivers
`k ↦ 7` but the gathered inputs hold the seed's `k ↦ 5`; the
non-conflicting seed key `extra` is merged in as the claim states. -/
theorem C4_seed_overrides_connection :
    getKey (gatherInputs nodeE wfC4 ctxC4) "k" = some (.num 5) ∧
    getKey (gatherInputs nodeE wfC4 ctxC4) "k" ≠ some (.num 7) ∧
    getKey (gatherInputs nodeE wfC4 ctxC4) "extra" = some (.num 9) := by decide

/-- **C5** (code bug): `groupNodesByLevel` is a single pass over the
connection list, so the partition depends on the order connections are
listed and is not longest-path depth.  For the chain `A → B → C` both
listings sort to the same execution order, but the reversed listing puts
`C` at level 1 — the same level as its predecessor `B`, not
`1 + max(level of predecessors) = 2` — while the forward listing gives the
claimed partition. -/
theorem C5_groupNodesByLevel_order_dependent :
    topologicalSort wfChainRev = .ok ["A", "B", "C"] ∧
    topologicalSort wfChainFwd = .ok ["A", "B", "C"] ∧
    groupNodesByLevel wfChainRev ["A", "B", "C"] = [["A"], ["B", "C"]] ∧
    groupNodesByLevel wfChainFwd ["A", "B", "C"] = [["A"], ["B"], ["C"]] ∧
    groupNodesByLevel wfChainRev ["A", "B", "C"] ≠
      groupNodesByLevel wfChainFwd ["A", "B", "C"] := by decide

/-- **C6** (code bug): `stopWorkflow` emits `workflow:failed` but neither
removes the run handle nor causes a rejection: the handle stays in
`activeWorkflows` with status `cancelled`, so `getWorkflowStatus`
afterwards returns `cancelled` (not `completed`), and the abort listener's
body is guarded by `if (!signal.aborted)`, which is always false when the
listener runs, so the pending future is never rejected. -/
theorem C6_stopWorkflow_leaves_handle :
    stopWorkflow esRun "wf1" = .ok esStopped ∧
    getWorkflowStatus esStopped "wf1" = .cancelled ∧
    getWorkflowStatus esStopped "wf1" ≠ .completed ∧
    (getEntry esStopped.activeWorkflows "wf1").isSome = true ∧
    esStopped.published = ["workflow:failed"] ∧
    abortListenerRejects true = false := by decide

/-- **C3 counterexample**: a run that completes successfully, with
connection `A.v → B.v` and `context.nodeOutputs["A"]["v"] = 0` recorded,
in which `B`'s gathered inputs (echoed into its outputs) contain nothing
under `v`: `gatherInputs` drops the falsy value `0`, so the claim's
"regardless of what that value is, including falsy values" fails. -/
theorem C3_cex_falsy_value_dropped :
    executeWorkflowSeq execC3 wfC3 none =
      .ok { workflowId := "wf-c3", status := .running,
            outputs := [("A", [("v", .num 0)]), ("B", [])],
            nodesExecuted := 2 } ∧
    (getEntry resC3outputs "A").map (fun r => getKey r "v") =
      some (some (.num 0)) ∧
    (getEntry resC3outputs "B").map (fun r => getKey r "v") =
      some none := by decide

/-- **C7 counterexample**: (i) a `once` subscriber whose callback throws
is *not* removed — `toRemove.push` is skipped in the catch path — so the
table after `publish` still contains it; (ii) a `system:error` subscriber
registered before the call is invoked twice during a single
`publish("evt", …)` when two subscribers throw, because each catch block
republishes `system:error`. -/
theorem C7_cex_once_throw_and_double_invoke :
    (publish tblOnceThrows "evt").1 = tblOnceThrows ∧
    (publish tblTwoThrow "evt").2.countP (fun pr => pr.1.id == 10) = 2 := by
  decide

/-- **C9 counterexample**: with `propagateChain = true` on the two-node
cycle `a → b → a`, the call starting at `a` publishes `node:b:ping` and
then also `node:a:ping` — the publish happens before the visited check, so
an event *is* published back to the originating node; and on the diamond
`s → {l,r} → t` the node `t` receives two publishes, so "each node
receives at most one published event" fails as well. -/
theorem C9_cex_cycle_publishes_back :
    (propagateEvent [] chainOpts [("wf-cyc-p", cycPW)] "wf-cyc-p" "a" "ping"
        [] 10).map (fun st => st.publishes.map (fun p => p.1)) =
      .ok ["node:b:ping", "node:a:ping"] ∧
    (propagateEvent [] chainOpts [("wf-dia", diaPW)] "wf-dia" "s" "ping"
        [] 10).map
        (fun st => (st.publishes.map (fun p => p.1)).count "node:t:ping") =
      .ok 2 := by decide

/-- **C10** (confirmed): `registerWorkflow` throws on a duplicate id and
leaves the table unchanged (so `hasWorkflow` is unchanged for every id),
and on a fresh id succeeds and makes `hasWorkflow` true. -/
theorem C10_registerWorkflow_duplicate_and_fresh
    (workflows : List (String × PropWorkflow)) (w : PropWorkflow) :
    (hasWorkflow workflows w.id = true →
      (registerWorkflow workflows w).1 =
        .error ("Workflow with ID " ++ w.id ++ " is already registered") ∧
      (registerWorkflow workflows w).2 = workflows ∧
      ∀ i, hasWorkflow (registerWorkflow workflows w).2 i =
        hasWorkflow workflows i) ∧
    (hasWorkflow workflows w.id = false →
      (registerWorkflow workflows w).1 = .ok () ∧
      hasWorkflow (registerWorkflow workflows w).2 w.id = true) := by
  constructor
  · intro h
    refine ⟨?_, ?_, ?_⟩ <;> simp [registerWorkflow, h]
  · intro h
    have hfind : getEntry workflows w.id = none := by
      cases hk : getEntry workflows w.id with
      | none => rfl
      | some x => simp [hasWorkflow, hk] at h
    refine ⟨by simp [registerWorkflow, h], ?_⟩
    simp [registerWorkflow, hasWorkflow, hfind,
      getEntry_append_right workflows w.id w hfind]

/-- **C2** (confirmed): for every workflow with no directed dependency
cycle, `topologicalSort` returns an order containing every workflow node
exactly once in which every connection's source strictly precedes its
target; for every workflow with a cycle the sort can reach (one through a
node on a dependency path to an entry point or workflow node), it throws
the cycle error, and the node named in the message lies on a directed
cycle. -/
theorem C2_topologicalSort_cycles (wf : Workflow) :
    ((∀ m, ¬ Relation.TransGen (edgeP wf) m m) →
      ∃ order, topologicalSort wf = .ok order ∧
        (∀ nd ∈ wf.nodes, order.count nd.id = 1) ∧
        (∀ c ∈ wf.connections, c.targetNodeId ∈ order →
          c.sourceNodeId ∈ order ∧
          order.indexOf c.sourceNodeId < order.indexOf c.targetNodeId)) ∧
    ((∃ m, Relation.TransGen (edgeP wf) m m ∧ ReachedBySort wf m) →
      ∃ m', topologicalSort wf = .error (cycleMsg m') ∧
        Relation.TransGen (edgeP wf) m' m') := by
  constructor
  · intro hacyc
    rcases hts : topologicalSort wf with e | order
    · exfalso
      obtain ⟨m, _, htg⟩ := topologicalSort_error_facts wf e hts
      exact hacyc m htg
    · obtain ⟨hres, hstarts⟩ := topologicalSort_ok_facts wf order hts
      refine ⟨order, rfl, ?_, ?_⟩
      · intro nd hnd
        exact List.count_eq_one_of_mem hres.1
          (hstarts nd.id (Or.inr (List.mem_map.mpr ⟨nd, hnd, rfl⟩)))
      · intro c hc htm
        have hedge : edgeP wf c.sourceNodeId c.targetNodeId := by
          show c.sourceNodeId ∈ getNodeDependencies c.targetNodeId wf
          unfold getNodeDependencies
          exact List.mem_map.mpr ⟨c, List.mem_filter.mpr ⟨hc, by simp⟩, rfl⟩
        exact resInv_dep_before wf order hres _ _ hedge htm
  · intro hcycle
    obtain ⟨m, htg, hreach⟩ := hcycle
    rcases hts : topologicalSort wf with e | order
    · obtain ⟨m', hmsg, htg'⟩ := topologicalSort_error_facts wf e hts
      exact ⟨m', by rw [hmsg], htg'⟩
    · exfalso
      obtain ⟨hres, hstarts⟩ := topologicalSort_ok_facts wf order hts
      have hmo : m ∈ order := reached_mem_order wf order hres hstarts m hreach
      obtain ⟨_, hlt⟩ := resInv_transGen_before wf order hres m m htg hmo
      exact lt_irrefl _ hlt

/-- Witness for C2: the connection-free workflow sorts successfully with
`A` appearing once; the two-node cycle `A → B → A` fails with a cycle
error naming a node on the cycle. -/
theorem C2_witness :
    (∃ order, topologicalSort wfNoConn = .ok order ∧ order.count "A" = 1) ∧
    (∃ m', topologicalSort wfCyc = .error (cycleMsg m') ∧
      Relation.TransGen (edgeP wfCyc) m' m') := by
  constructor
  · have hacyc : ∀ m, ¬ Relation.TransGen (edgeP wfNoConn) m m := by
      intro m htg
      cases htg with
      | single he => simp [edgeP, getNodeDependencies, wfNoConn] at he
      | tail htg2 he => simp [edgeP, getNodeDependencies, wfNoConn] at he
    obtain ⟨order, hok, hcount, _⟩ :=
      (C2_topologicalSort_cycles wfNoConn).1 hacyc
    exact ⟨order, hok, hcount ⟨"A", "p"⟩ (by decide)⟩
  · exact (C2_topologicalSort_cycles wfCyc).2
      ⟨"A",
       Relation.TransGen.head
         (show edgeP wfCyc "A" "B" by unfold edgeP; decide)
         (Relation.TransGen.single (show edgeP wfCyc "B" "A" by unfold edgeP; decide)),
       ⟨"A", Or.inl (by decide), Relation.ReflTransGen.refl⟩⟩

/-! ### Propagator: the visited set never repeats a node -/

/-- Both propagation functions preserve `visitedNodes` distinctness and
only ever append to the visited set. -/
theorem propagate_visited_nodup_aux (filters : List EventFilter)
    (options : PropagationOptions) (wf : PropWorkflow) (eventType : String) :
    ∀ fuel : Nat,
      (∀ src data st, st.visitedNodes.Nodup →
        (propagateToConnected filters options wf eventType fuel src data
          st).visitedNodes.Nodup ∧
        ∃ t, (propagateToConnected filters options wf eventType fuel src data
          st).visitedNodes = st.visitedNodes ++ t) ∧
      (∀ src data conns st, st.visitedNodes.Nodup →
        (propagateLoop filters options wf eventType fuel src data conns
          st).visitedNodes.Nodup ∧
        ∃ t, (propagateLoop filters options wf eventType fuel src data conns
          st).visitedNodes = st.visitedNodes ++ t) := by
  intro fuel
  induction fuel with
  | zero =>
    constructor
    · intro src data st h
      exact ⟨h, [], by simp [propagateToConnected]⟩
    · intro src data conns st h
      exact ⟨h, [], by simp [propagateLoop]⟩
  | succ fuel ih =>
    obtain ⟨ihC, ihL⟩ := ih
    constructor
    · intro src data st h
      by_cases hc : st.visitedNodes.contains src
      · simp only [propagateToConnected, hc, if_true]
        exact ⟨h, [], by simp⟩
      · have hmem : src ∉ st.visitedNodes := by
          simpa using hc
        have h1 : (st.visitedNodes ++ [src]).Nodup := by
          simp [List.nodup_append, h, hmem]
        simp only [propagateToConnected, hc, if_false]
        obtain ⟨hn, t, ht⟩ := ihL src data
          (wf.connections.filter (fun c => c.sourceNodeId == src))
          { st with visitedNodes := st.visitedNodes ++ [src] } h1
        exact ⟨hn, src :: t, by simpa using ht⟩
    · intro src data conns st h
      match conns with
      | [] => exact ⟨h, [], by simp [propagateLoop]⟩
      | connection :: rest =>
        simp only [propagateLoop]
        by_cases hf : passesFilters filters eventType
          (match options.transform with
            | some t => t (setKey data "sourceNodeId" (.str src)) src
                connection.targetNodeId
            | none => setKey data "sourceNodeId" (.str src))
        · simp only [hf, if_true]
          by_cases hchain : options.propagateChain
          · simp only [hchain, if_true]
            obtain ⟨hn1, t1, ht1⟩ := ihC connection.targetNodeId _
              { st with publishes := st.publishes ++ _ } h
            obtain ⟨hn2, t2, ht2⟩ := ihL src data rest _ hn1
            refine ⟨hn2, t1 ++ t2, ?_⟩
            rw [ht2, ht1]
            simp
          · simp only [hchain, if_false]
            obtain ⟨hn2, t2, ht2⟩ := ihL src data rest
              { st with publishes := st.publishes ++ _ } h
            exact ⟨hn2, t2, by simpa using ht2⟩
        · simp only [hf, if_false]
          exact ihL src data rest st h

/-- **C9** (corrected): the per-invocation visited set never contains a
node twice, so every node's outgoing connections are expanded at most once
per top-level call and chained propagation terminates; but a target
receives one publish per traversed in-edge, and on the two-node cycle
`a → b → a` the call from `a` publishes `node:b:ping` exactly once *and*
`node:a:ping` exactly once — the event is published back to the
originating node, rather than "no further publishes". -/
theorem C9_visited_once_and_cycle_publishes :
    (∀ (filters : List EventFilter) (options : PropagationOptions)
        (wf : PropWorkflow) (eventType : String) (fuel : Nat) (src : String)
        (data : Rec),
      (propagateToConnected filters options wf eventType fuel src data
        { visitedNodes := [], publishes := [] }).visitedNodes.Nodup) ∧
    propagateEvent [] chainOpts [("wf-cyc-p", cycPW)] "wf-cyc-p" "a" "ping"
        [] 10 =
      .ok { visitedNodes := ["a", "b"],
            publishes := [("node:b:ping", [("sourceNodeId", .str "a")]),
                          ("node:a:ping", [("sourceNodeId", .str "b")])] } := by
  constructor
  · intro filters options wf eventType fuel src data
    exact ((propagate_visited_nodup_aux filters options wf eventType fuel).1
      src data _ List.nodup_nil).1
  · decide

/-! ### Event bus: delivery trace lemmas -/

/-- The nested error-publish loop appends exactly one `system:error` trace
entry per snapshot subscriber. -/
theorem errLoop_trace :
    ∀ (l table : List SubscriptionInfo) (trace : List (SubFields × String))
      (toRemove : List Nat),
      (errLoop l table trace toRemove).2.1 =
        trace ++ l.map (fun s => (s.toSubFields, SYSTEM_ERROR)) := by
  intro l
  induction l with
  | nil => intro table trace toRemove; simp [errLoop]
  | cons s rest ih =>
    intro table trace toRemove
    by_cases hthrows : s.throws
    · simp [errLoop, hthrows, ih]
    · simp [errLoop, hthrows, ih]

/-- The nested `publish(SYSTEM_ERROR, ...)` appends only `system:error`
trace entries. -/
theorem errPublish_trace (table : List SubscriptionInfo)
    (trace : List (SubFields × String)) :
    (errPublish table trace).2 =
      trace ++ (sortByPriority (table.filter
          (fun s => s.eventType == SYSTEM_ERROR))).map
        (fun s => (s.toSubFields, SYSTEM_ERROR)) := by
  unfold errPublish
  rcases h : errLoop (sortByPriority (table.filter
      (fun s => s.eventType == SYSTEM_ERROR))) table trace [] with ⟨t2, tr2, rm⟩
  have htr := errLoop_trace (sortByPriority (table.filter
      (fun s => s.eventType == SYSTEM_ERROR))) table trace []
  rw [h] at htr
  simp only [h]
  simpa using htr

/-- Two distinct strings are `==`-false in both directions. -/
theorem beq_false_symm {a b : String} (h : (a == b) = false) :
    (b == a) = false := by
  rcases Bool.eq_false_iff.mp h with _
  have hne : a ≠ b := by
    intro hab
    rw [hab] at h
    simp at h
  exact beq_eq_false_iff_ne.mpr (Ne.symm hne)

/-- Filtering the delivery trace to the published event type recovers
exactly the sorted snapshot, one entry per subscriber, regardless of
throwing callbacks and nested `system:error` publishes. -/
theorem pubLoop_trace_filter (eventType : String) :
    ∀ (l table : List SubscriptionInfo) (trace : List (SubFields × String))
      (toRemove : List Nat),
      ((pubLoop eventType l table trace toRemove).2.1).filter
          (fun pr => pr.2 == eventType) =
        trace.filter (fun pr => pr.2 == eventType)
          ++ l.map (fun s => (s.toSubFields, eventType)) := by
  intro l
  induction l with
  | nil => intro table trace toRemove; simp [pubLoop]
  | cons s rest ih =>
    intro table trace toRemove
    by_cases hthrows : s.throws
    · by_cases hsys : (eventType == SYSTEM_ERROR) = true
      · simp [pubLoop, hthrows, hsys, ih]
      · have hsys' : (eventType == SYSTEM_ERROR) = false :=
          Bool.eq_false_iff.mpr hsys
        have hsys'' : (SYSTEM_ERROR == eventType) = false :=
          beq_false_symm hsys'
        simp only [pubLoop, hthrows, if_true, hsys', Bool.false_eq_true,
          if_false]
        rw [errPublish_trace, ih]
        simp [List.filter_append, List.filter_map, Function.comp, hsys'']
    · simp [pubLoop, hthrows, ih]

/-- `publish` invokes, with the published event type, exactly the sorted
snapshot of the subscribers registered for it when the call began. -/
theorem invokedFor_eq (table : List SubscriptionInfo) (eventType : String) :
    invokedFor table eventType =
      (sortByPriority (table.filter (fun s => s.eventType == eventType))).map
        (fun s => s.toSubFields) := by
  unfold invokedFor publish
  by_cases hempty :
      (table.filter (fun s => s.eventType == eventType)).isEmpty
  · rw [List.isEmpty_iff] at hempty
    simp [hempty, sortByPriority]
  · have hempty' :
        (table.filter (fun s => s.eventType == eventType)).isEmpty = false :=
      Bool.eq_false_iff.mpr hempty
    simp only [hempty', Bool.false_eq_true, if_false]
    have := pubLoop_trace_filter eventType
      (sortByPriority (table.filter (fun s => s.eventType == eventType)))
      table [] []
    rcases hpl : pubLoop eventType
        (sortByPriority (table.filter (fun s => s.eventType == eventType)))
        table [] [] with ⟨table2, trace, toRemove⟩
    rw [hpl] at this
    simp only at this
    simp [this, List.map_map, Function.comp]

/-- Stability of `orderedInsert` under the descending-priority relation:
per priority class the insertion position is at the front. -/
theorem filter_pri_orderedInsert (x : SubscriptionInfo) (p : Int) :
    ∀ l : List SubscriptionInfo,
      (List.orderedInsert (fun a b => b.priority ≤ a.priority) x l).filter
          (fun s => s.priority == p) =
        if x.priority == p then
          x :: l.filter (fun s => s.priority == p)
        else l.filter (fun s => s.priority == p) := by
  intro l
  induction l with
  | nil =>
    by_cases hx : (x.priority == p) = true <;>
      simp [List.orderedInsert, List.filter, hx]
  | cons y ys ih =>
    by_cases hr : y.priority ≤ x.priority
    · by_cases hx : (x.priority == p) = true <;>
        simp [List.orderedInsert, hr, List.filter_cons, hx]
    · have hlt : x.priority < y.priority := lt_of_not_ge hr
      by_cases hy : (y.priority == p) = true
      · by_cases hx : (x.priority == p) = true
        · exfalso
          have h1 : x.priority = p := by simpa using hx
          have h2 : y.priority = p := by simpa using hy
          rw [h1, h2] at hlt
          exact lt_irrefl p hlt
        · simp [List.orderedInsert, hr, List.filter_cons, hy, hx, ih]
      · by_cases hx : (x.priority == p) = true <;>
          simp [List.orderedInsert, hr, List.filter_cons, hy, hx, ih]

/-- Stability of the snapshot sort: within one priority class the sorted
order is the snapshot (insertion) order. -/
theorem filter_pri_sortByPriority (p : Int) :
    ∀ l : List SubscriptionInfo,
      (sortByPriority l).filter (fun s => s.priority == p) =
        l.filter (fun s => s.priority == p) := by
  intro l
  unfold sortByPriority
  induction l with
  | nil => simp
  | cons x xs ih =>
    rw [List.insertionSort, filter_pri_orderedInsert x p]
    by_cases hx : (x.priority == p) = true <;>
      simp [List.filter_cons, hx, ih]

/-- **C8** (confirmed): within one `publish`, the subscribers invoked with
the published event type are exactly the pre-call snapshot, started in
descending priority order with ties in insertion (subscription) order —
and therefore a subscription registered while the publish is delivering is
not invoked with that event (every invocation for the event comes from the
pre-call table). -/
theorem C8_publish_priority_order (table : List SubscriptionInfo)
    (eventType : String) :
    invokedFor table eventType =
      (sortByPriority (table.filter (fun s => s.eventType == eventType))).map
        (fun s => s.toSubFields) ∧
    (invokedFor table eventType).Pairwise
      (fun a b => b.priority ≤ a.priority) ∧
    (∀ p : Int, (invokedFor table eventType).filter (fun c => c.priority == p)
      = ((table.filter (fun s => s.eventType == eventType)).map
          (fun s => s.toSubFields)).filter (fun c => c.priority == p)) ∧
    (∀ c ∈ invokedFor table eventType,
      c ∈ (table.filter (fun s => s.eventType == eventType)).map
        (fun s => s.toSubFields)) := by
  refine ⟨invokedFor_eq table eventType, ?_, ?_, ?_⟩
  · rw [invokedFor_eq]
    have hs : (sortByPriority (table.filter
        (fun s => s.eventType == eventType))).Pairwise
        (fun a b => b.priority ≤ a.priority) :=
      List.sorted_insertionSort _ _
    exact hs.map _ (fun a b hab => hab)
  · intro p
    rw [invokedFor_eq, List.filter_map, List.filter_map]
    have : (fun c : SubFields => c.priority == p) ∘
        (fun s : SubscriptionInfo => s.toSubFields) =
        fun s : SubscriptionInfo => s.priority == p := rfl
    rw [this, filter_pri_sortByPriority]
  · intro c hc
    rw [invokedFor_eq] at hc
    rcases List.mem_map.mp hc with ⟨s, hs, rfl⟩
    exact List.mem_map.mpr
      ⟨s, (List.mem_insertionSort _).mp hs, rfl⟩

/-- The `once` removals collected by the top-level delivery loop are
exactly the non-throwing `once` subscribers of the snapshot; the catch
path and the nested `system:error` publish contribute none. -/
theorem pubLoop_toRemove (eventType : String) :
    ∀ (l table : List SubscriptionInfo) (trace : List (SubFields × String))
      (toRemove : List Nat),
      (pubLoop eventType l table trace toRemove).2.2 =
        toRemove ++ (l.filter (fun s => !s.throws && s.once)).map
          (fun s => s.id) := by
  intro l
  induction l with
  | nil => intro table trace toRemove; simp [pubLoop]
  | cons s rest ih =>
    intro table trace toRemove
    by_cases hthrows : s.throws
    · by_cases hsys : (eventType == SYSTEM_ERROR) = true
      · simp [pubLoop, hthrows, hsys, ih, List.filter_cons]
      · have hsys' : (eventType == SYSTEM_ERROR) = false :=
          Bool.eq_false_iff.mpr hsys
        rcases hep : errPublish (table ++ s.registers.map SubFields.toSub)
            (trace ++ [(s.toSubFields, eventType)]) with ⟨t2, tr2⟩
        simp [pubLoop, hthrows, hsys', hep, ih, List.filter_cons]
    · by_cases honce : s.once
      · simp [pubLoop, hthrows, honce, ih, List.filter_cons]
      · simp [pubLoop, hthrows, honce, ih, List.filter_cons]

/-- **C7** (corrected): for every `publish(e, d)`: every subscriber of `e`
registered before the call is invoked with `e` at most once; every `once`
subscriber of `e` *whose callback does not throw* is removed from the
table by the end of the call; and every subscriber of the snapshot is
invoked — one subscriber's exception never prevents another's delivery
(and `publish` is a total function, so no exception escapes it).  The
claim's "including when its callback throws" is what fails (see the
counterexample): a throwing `once` subscriber is skipped by the removal
collection. -/
theorem C7_publish_invocation_and_once_removal
    (table : List SubscriptionInfo) (e : String)
    (hids : (table.map (fun s => s.id)).Nodup) :
    (∀ s ∈ table, s.eventType = e →
      (invokedFor table e).countP (fun c => c.id == s.id) ≤ 1) ∧
    (∀ s ∈ table, s.eventType = e → s.once = true → s.throws = false →
      ∀ s' ∈ (publish table e).1, ¬(s'.eventType = e ∧ s'.id = s.id)) ∧
    (∀ s ∈ table, s.eventType = e → s.toSubFields ∈ invokedFor table e) := by
  refine ⟨?_, ?_, ?_⟩
  · intro s hs hse
    rw [invokedFor_eq, List.countP_map]
    have h1 : List.countP
        ((fun c : SubFields => c.id == s.id) ∘ fun s => s.toSubFields)
        (sortByPriority (table.filter (fun x => x.eventType == e))) =
        List.countP (fun x : SubscriptionInfo => x.id == s.id)
          (table.filter (fun x => x.eventType == e)) :=
      (List.perm_insertionSort _ _).countP_eq _
    rw [h1]
    have h2 : List.countP (fun x : SubscriptionInfo => x.id == s.id)
        (table.filter (fun x => x.eventType == e)) ≤
        List.countP (fun x : SubscriptionInfo => x.id == s.id) table :=
      (List.filter_sublist table).countP_le _
    refine le_trans h2 ?_
    have h3 : List.countP (fun x : SubscriptionInfo => x.id == s.id) table =
        List.count s.id (table.map (fun x => x.id)) := by
      rw [List.count, List.countP_map]
      rfl
    rw [h3]
    exact List.nodup_iff_count_le_one.mp hids s.id
  · intro s hs hse honce hthrows s' hmem' hcontra
    rcases hcontra with ⟨he', hid'⟩
    have hsnap : s ∈ table.filter (fun x => x.eventType == e) :=
      List.mem_filter.mpr ⟨hs, by simp [hse]⟩
    have hsnape : (table.filter (fun x => x.eventType == e)).isEmpty = false := by
      rcases hl : table.filter (fun x => x.eventType == e) with _ | ⟨a, l⟩
      · rw [hl] at hsnap; simp at hsnap
      · rw [hl]; rfl
    rcases hpl : pubLoop e
        (sortByPriority (table.filter (fun x => x.eventType == e)))
        table [] [] with ⟨table2, trace2, rm2⟩
    have hfin : (publish table e).1 = removeOnce e rm2 table2 := by
      simp only [publish, hsnape, Bool.false_eq_true, if_false, hpl]
    have hrm : rm2 = ((sortByPriority (table.filter
        (fun x => x.eventType == e))).filter
          (fun x => !x.throws && x.once)).map (fun x => x.id) := by
      have := pubLoop_toRemove e
        (sortByPriority (table.filter (fun x => x.eventType == e))) table [] []
      rw [hpl] at this
      simpa using this
    have hsid : s.id ∈ rm2 := by
      rw [hrm]
      exact List.mem_map.mpr ⟨s, List.mem_filter.mpr
        ⟨(List.mem_insertionSort _).mpr hsnap, by simp [hthrows, honce]⟩, rfl⟩
    rw [hfin] at hmem'
    have hpred := (List.mem_filter.mp hmem').2
    rw [he', hid'] at hpred
    simp [hsid] at hpred
  · intro s hs hse
    rw [invokedFor_eq]
    exact List.mem_map.mpr ⟨s, (List.mem_insertionSort _).mpr
      (List.mem_filter.mpr ⟨hs, by simp [hse]⟩), rfl⟩

/-! ### `gatherInputs` connection loop -/

/-- A connection that does not target the port `(node.id, q)` leaves the
accumulated inputs at `q` untouched. -/
theorem gatherStep_preserve (node : Node) (ctx : ExecutionContext)
    (acc : Rec) (c : Connection) (q : String)
    (h : c.targetNodeId = node.id → c.targetPortId ≠ q) :
    getKey (gatherStep node ctx acc c) q = getKey acc q := by
  unfold gatherStep
  by_cases hT : (c.targetNodeId == node.id) = true
  · have hneq : c.targetPortId ≠ q := h (by simpa using hT)
    cases hso : getEntry ctx.nodeOutputs c.sourceNodeId with
    | none => simp [hT, hso]
    | some so =>
      cases hv : getKey so c.sourcePortId with
      | none => simp [hT, hso, hv]
      | some v =>
        by_cases htr : v.truthy = true
        · simp only [hT, if_true, hso, hv, htr]
          exact getEntry_setEntry_ne acc c.targetPortId q v (Ne.symm hneq)
        · simp [hT, hso, hv, Bool.eq_false_iff.mpr htr]
  · simp [Bool.eq_false_iff.mpr hT]

/-- The step at the unique connection feeding `(node.id, q)`: a truthy
source value is written under `q`, a falsy one skipped. -/
theorem gatherStep_write (node : Node) (ctx : ExecutionContext) (acc : Rec)
    (c : Connection) (so : Rec) (v : Value)
    (ht : c.targetNodeId = node.id)
    (hso : getEntry ctx.nodeOutputs c.sourceNodeId = some so)
    (hv : getKey so c.sourcePortId = some v) :
    gatherStep node ctx acc c =
      if v.truthy then setKey acc c.targetPortId v else acc := by
  unfold gatherStep
  simp [ht, hso, hv]

/-- A connection list with no connection into `(node.id, q)` leaves `q`
unset by the whole loop. -/
theorem gather_fold_preserve (node : Node) (ctx : ExecutionContext)
    (q : String) :
    ∀ (cs : List Connection) (acc : Rec),
      (∀ c' ∈ cs, ¬(c'.targetNodeId = node.id ∧ c'.targetPortId = q)) →
      getKey (cs.foldl (gatherStep node ctx) acc) q = getKey acc q := by
  intro cs
  induction cs with
  | nil => intro acc _; rfl
  | cons c'' rest ih =>
    intro acc h
    rw [List.foldl_cons, ih _ (fun c' hm => h c' (by simp [hm]))]
    exact gatherStep_preserve node ctx acc c'' q
      (fun h1 h2 => h c'' (by simp) ⟨h1, h2⟩)

/-- Through the whole connection loop, the port fed by the unique
connection `c` into `(node.id, c.targetPortId)` ends up holding the
source value exactly when it is truthy. -/
theorem gather_fold_unique (node : Node) (ctx : ExecutionContext)
    (c : Connection) (so : Rec) (v : Value)
    (ht : c.targetNodeId = node.id)
    (hso : getEntry ctx.nodeOutputs c.sourceNodeId = some so)
    (hv : getKey so c.sourcePortId = some v) :
    ∀ (cs : List Connection) (acc : Rec),
      c ∈ cs →
      (∀ c' ∈ cs, c'.targetNodeId = node.id →
        c'.targetPortId = c.targetPortId → c' = c) →
      getKey (cs.foldl (gatherStep node ctx) acc) c.targetPortId =
        if v.truthy then some v else getKey acc c.targetPortId := by
  intro cs
  induction cs with
  | nil => intro acc hmem; simp at hmem
  | cons c'' rest ih =>
    intro acc hmem huniq
    rw [List.foldl_cons]
    by_cases hcc : c'' = c
    · subst hcc
      rw [gatherStep_write node ctx acc c'' so v ht hso hv]
      by_cases hcr : c'' ∈ rest
      · rw [ih _ hcr (fun c' hm h1 h2 => huniq c' (by simp [hm]) h1 h2)]
        cases htr : v.truthy <;> simp [htr]
      · have hnowrite : ∀ c' ∈ rest,
            ¬(c'.targetNodeId = node.id ∧ c'.targetPortId = c''.targetPortId) := by
          intro c' hm hcontra
          rcases hcontra with ⟨h1, h2⟩
          have heq := huniq c' (by simp [hm]) h1 h2
          rw [heq] at hm
          exact hcr hm
        rw [gather_fold_preserve node ctx c''.targetPortId rest _ hnowrite]
        cases htr : v.truthy with
        | true =>
          simp only [htr, if_true]
          exact getEntry_setEntry_same acc c''.targetPortId v
        | false => simp [htr]
    · have hmem' : c ∈ rest := by
        rcases List.mem_cons.mp hmem with h | h
        · exact absurd h.symm hcc
        · exact h
      have hpres : getKey (gatherStep node ctx acc c'') c.targetPortId =
          getKey acc c.targetPortId :=
        gatherStep_preserve node ctx acc c'' c.targetPortId
          (fun h1 h2 => hcc (huniq c'' (by simp) h1 h2))
      rw [ih _ hmem' (fun c' hm h1 h2 => huniq c' (by simp [hm]) h1 h2), hpres]

/-- **C3** (corrected): for a connection `c : u.p → v.q` that is the only
connection into `(v, q)` (the fan-in-of-1 invariant of the data model),
when the entry seed (if any) carries nothing under `q`, the gathered
inputs of `v` hold the recorded value `context.nodeOutputs[u][p]` at `q`
exactly when that value is JS-truthy — a falsy recorded value (0, false,
"", null) is omitted, which is what the counterexample exhibits on a
completed run. -/
theorem C3_gatherInputs_truthy (wf : Workflow) (node : Node)
    (ctx : ExecutionContext) (c : Connection)
    (hc : c ∈ wf.connections) (ht : c.targetNodeId = node.id)
    (hfan : ∀ c' ∈ wf.connections, c'.targetNodeId = node.id →
      c'.targetPortId = c.targetPortId → c' = c)
    (hseed : wf.entryPoints.contains node.id = true →
      ∀ init, getEntry ctx.nodeOutputs node.id = some init →
        getKey init c.targetPortId = none)
    (so : Rec) (hso : getEntry ctx.nodeOutputs c.sourceNodeId = some so)
    (v : Value) (hv : getKey so c.sourcePortId = some v) :
    getKey (gatherInputs node wf ctx) c.targetPortId =
      if v.truthy then some v else none := by
  have hfold : getKey (wf.connections.foldl (gatherStep node ctx) [])
      c.targetPortId = if v.truthy then some v else none :=
    gather_fold_unique node ctx c so v ht hso hv wf.connections [] hc hfan
  have heq : gatherInputs node wf ctx =
      (if wf.entryPoints.contains node.id then
        match getEntry ctx.nodeOutputs node.id with
        | some initialInputs =>
            assign (wf.connections.foldl (gatherStep node ctx) [])
              initialInputs
        | none => wf.connections.foldl (gatherStep node ctx) []
      else wf.connections.foldl (gatherStep node ctx) []) := rfl
  rw [heq]
  by_cases hentry : wf.entryPoints.contains node.id = true
  · rw [if_pos hentry]
    cases hinit : getEntry ctx.nodeOutputs node.id with
    | none => exact hfold
    | some init =>
      have hnone := hseed hentry init hinit
      rw [getKey_assign_of_not_mem init c.targetPortId
        (getKey_eq_none_forall init c.targetPortId hnone) _]
      exact hfold
  · rw [if_neg hentry]
    exact hfold

/-- Witness for C3: the sole connection `U.p → V.q` with the truthy
recorded value `{p: 3}` yields gathered inputs holding `3` at `q`. -/
theorem C3_witness :
    getKey (gatherInputs nodeV wfC3W ctxC3W) "q" = some (.num 3) := by
  have h := C3_gatherInputs_truthy wfC3W nodeV ctxC3W
    ⟨"cw", "U", "p", "V", "q"⟩ (by decide) rfl (by decide)
    (fun hcon => absurd hcon (by decide))
    [("p", .num 3)] (by decide) (.num 3) (by decide)
  simpa using h

/-- Witness for C7 at a concrete table: the non-throwing `once` subscriber
(id 21) is invoked at most once and is gone from the table afterwards. -/
theorem C7_witness :
    (invokedFor tblC7W "evt").countP (fun c => c.id == 21) ≤ 1 ∧
    (⟨⟨21, "evt", 5, true, true, false⟩, []⟩ : SubscriptionInfo) ∉
      (publish tblC7W "evt").1 := by
  have h := C7_publish_invocation_and_once_removal tblC7W "evt" (by decide)
  constructor
  · exact h.1 ⟨⟨21, "evt", 5, true, true, false⟩, []⟩ (by decide) rfl
  · intro hmem
    exact h.2.1 ⟨⟨21, "evt", 5, true, true, false⟩, []⟩ (by decide) rfl rfl rfl
      _ hmem ⟨rfl, rfl⟩

/-- Witness for C8 at a concrete table: the priority-5 subscriber starts
before the priority-1 subscriber, and its priority class keeps insertion
order. -/
theorem C8_witness :
    invokedFor tblC7W "evt" =
      [⟨21, "evt", 5, true, true, false⟩,
       ⟨22, "evt", 1, false, true, false⟩] ∧
    (invokedFor tblC7W "evt").filter (fun c => c.priority == (5 : Int)) =
      [⟨21, "evt", 5, true, true, false⟩] := by
  have h := C8_publish_priority_order tblC7W "evt"
  constructor
  · rw [h.1]; decide
  · rw [h.2.2.1 5]; decide

/-- Witness for C9: the visited set of the concrete cyclic propagation is
duplicate-free. -/
theorem C9_witness :
    (propagateToConnected [] chainOpts cycPW "ping" 10 "a" []
      { visitedNodes := [], publishes := [] }).visitedNodes.Nodup :=
  C9_visited_once_and_cycle_publishes.1 [] chainOpts cycPW "ping" 10 "a" []

/-- Witness for C10 at concrete inputs: registering `w1` into a table that
already holds it errors and keeps the table; registering it into the empty
table succeeds. -/
theorem C10_witness :
    ((registerWorkflow [("w1", pw1)] pw1).1 =
        .error "Workflow with ID w1 is already registered" ∧
      (registerWorkflow [("w1", pw1)] pw1).2 = [("w1", pw1)]) ∧
    ((registerWorkflow [] pw1).1 = .ok () ∧
      hasWorkflow (registerWorkflow [] pw1).2 "w1" = true) := by
  refine ⟨?_, ?_⟩
  · have h := (C10_registerWorkflow_duplicate_and_fresh [("w1", pw1)] pw1).1
      (by decide)
    exact ⟨h.1, h.2.1⟩
  · exact (C10_registerWorkflow_duplicate_and_fresh [] pw1).2 (by decide)

end RebelFlow
